import Mathlib

/-!
Shallow embedding of the LSP_Apperal production-tracking / inventory-ledger
core (src/server/app/routers/production.py, src/server/app/routers/sale.py,
models in src/server/app/models, access control in src/app/auth.py), together
with theorems settling the frozen claims about it.

Python dicts of size → quantity are modelled as association lists
`List (String × Int)` with first-occurrence lookup semantics; dict
well-formedness (no duplicate keys) is an explicit predicate.  Firestore
collections are association lists keyed by document id.  Money amounts
(floats in the source, compared with a 1e-6 tolerance) are modelled as
rationals with the same tolerance.  Timestamps are opaque naturals.
-/

namespace LSP

/-! ### Dict primitives (Python `dict` of size → quantity) -/

/-- Python `d.get(k, 0)` on a size dict: value of the first entry with key `k`, else 0. -/
def getQty : List (String × Int) → String → Int
  | [], _ => 0
  | p :: rest, s => if p.1 = s then p.2 else getQty rest s

/-- Whether the dict holds key `k` (`k in d`). -/
def hasKey : List (String × Int) → String → Bool
  | [], _ => false
  | p :: rest, s => p.1 = s || hasKey rest s

/-- Python `d[k] = v`: replace the first entry with key `k`, or append a new entry. -/
def setQty : List (String × Int) → String → Int → List (String × Int)
  | [], s, v => [(s, v)]
  | p :: rest, s, v => if p.1 = s then (s, v) :: rest else p :: setQty rest s v

/-- Python `d[k] = d.get(k, 0) + q`. -/
def bumpQty (l : List (String × Int)) (s : String) (q : Int) : List (String × Int) :=
  setQty l s (getQty l s + q)

/-- Python `sum(d.values())`. -/
def sumVals (l : List (String × Int)) : Int :=
  (l.map (fun p => p.2)).sum

/-- Dict well-formedness: keys occur at most once. -/
def keysNodup (l : List (String × Int)) : Prop :=
  (l.map (fun p => p.1)).Nodup

/-- All stored quantities are non-negative. -/
def allNonneg (l : List (String × Int)) : Prop :=
  ∀ p ∈ l, 0 ≤ p.2

instance (l : List (String × Int)) : Decidable (keysNodup l) := by
  unfold keysNodup; infer_instance

instance (l : List (String × Int)) : Decidable (allNonneg l) := by
  unfold allNonneg; infer_instance

/-! ### Domain enums (src/server/app/models; error kinds per spec §7) -/

inductive Stage where
  | cutting
  | sewing
  | ironing
deriving DecidableEq

inductive Status where
  | pending
  | inProgress
  | completed
deriving DecidableEq

inductive AccessLevel where
  | level1
  | level2
deriving DecidableEq

inductive PaymentType where
  | cash
  | credit
deriving DecidableEq

inductive Err where
  | validation
  | notFound
  | precondition
  | permission
deriving DecidableEq

/-- Access gate of `get_current_user_with_access` (src/app/auth.py): the caller
passes when its level equals the required level, or is LEVEL_2. -/
def requireAccess (required userLevel : AccessLevel) : Bool :=
  userLevel == required || userLevel == AccessLevel.level2

/-! ### Production tracking records and stage transitions (production.py) -/

structure StageState where
  status : Status
  arrivedAt : Option Nat
  completedAt : Option Nat
deriving DecidableEq

structure Stages where
  cutting : StageState
  sewing : StageState
  ironing : StageState
deriving DecidableEq

/-- A production_tracking document.  A missing or empty `design_id` field is
modelled as the empty string (both are falsy in the source's `if design_id:`). -/
structure Tracking where
  designId : String
  stage : Stage
  status : Status
  arrivedAt : Option Nat
  completedAt : Option Nat
  stages : Stages
  updatedAt : Nat
deriving DecidableEq

def stageStateOf (st : Stages) : Stage → StageState
  | .cutting => st.cutting
  | .sewing => st.sewing
  | .ironing => st.ironing

/-- Position in STAGE_SEQUENCE. -/
def stageIdx : Stage → Nat
  | .cutting => 0
  | .sewing => 1
  | .ironing => 2

/-- STAGE_SEQUENCE[index - 1]; only used when the index is positive. -/
def prevStage : Stage → Stage
  | .cutting => .cutting
  | .sewing => .cutting
  | .ironing => .sewing

def setStageState (st : Stages) : Stage → StageState → Stages
  | .cutting, x => { st with cutting := x }
  | .sewing, x => { st with sewing := x }
  | .ironing, x => { st with ironing := x }

/-- The `_default_stage_payload` helper from production.py. -/
def defaultStagePayload (now : Nat) : Stages :=
  { cutting := ⟨.inProgress, some now, none⟩
    sewing := ⟨.pending, none, none⟩
    ironing := ⟨.pending, none, none⟩ }

/-- START_CUTTING on a new design: the created tracking document. -/
def newTracking (designId : String) (now : Nat) : Tracking :=
  { designId := designId
    stage := .cutting
    status := .inProgress
    arrivedAt := some now
    completedAt := none
    stages := defaultStagePayload now
    updatedAt := now }

/-- START_CUTTING on an existing record: reset the record and all stages. -/
def resetTracking (t : Tracking) (now : Nat) : Tracking :=
  { t with
    stage := .cutting
    status := .inProgress
    arrivedAt := some now
    completedAt := none
    stages := defaultStagePayload now
    updatedAt := now }

/-- COMPLETE_CUTTING branch of operate_production (tracking fields only). -/
def completeCuttingStep (t : Tracking) (now : Nat) : Except Err Tracking :=
  if t.stage ≠ Stage.cutting then .error .precondition
  else if t.status ≠ Status.inProgress then .error .precondition
  else .ok { t with
    stage := .sewing
    status := .pending
    arrivedAt := none
    completedAt := none
    stages := { t.stages with
      cutting := { t.stages.cutting with status := .completed, completedAt := some now }
      sewing := ⟨.pending, none, none⟩ }
    updatedAt := now }

/-- Overview states in which START_SEWING is allowed. -/
def allowedSewingState (t : Tracking) : Bool :=
  (t.stage == Stage.sewing
      && (t.status == Status.pending || t.status == Status.completed))
    || (t.stage == Stage.cutting && t.status == Status.completed)

/-- START_SEWING branch of operate_production (tracking fields only).
The `_ensure_cutting_completed` guard comes first, as in the source. -/
def startSewingStep (t : Tracking) (now : Nat) : Except Err Tracking :=
  if t.stages.cutting.status ≠ Status.completed then .error .precondition
  else if t.stages.sewing.status ≠ Status.pending ∨ allowedSewingState t = false then
    .error .precondition
  else .ok { t with
    stage := .sewing
    status := .inProgress
    arrivedAt := some now
    completedAt := none
    stages := { t.stages with
      sewing := { t.stages.sewing with status := .inProgress, arrivedAt := some now } }
    updatedAt := now }

/-- COMPLETE_SEWING branch of operate_production (tracking fields only). -/
def completeSewingStep (t : Tracking) (now : Nat) : Except Err Tracking :=
  if t.stage ≠ Stage.sewing then .error .precondition
  else if t.status ≠ Status.inProgress then .error .precondition
  else .ok { t with
    stage := .ironing
    status := .pending
    arrivedAt := none
    completedAt := none
    stages := { t.stages with
      sewing := { t.stages.sewing with status := .completed, completedAt := some now }
      ironing := ⟨.pending, none, none⟩ }
    updatedAt := now }

/-- Overview states in which START_IRONING is allowed. -/
def allowedIroningState (t : Tracking) : Bool :=
  (t.stage == Stage.ironing && t.status == Status.pending)
    || (t.stage == Stage.sewing && t.status == Status.completed)

/-- START_IRONING branch of operate_production (tracking fields only). -/
def startIroningStep (t : Tracking) (now : Nat) : Except Err Tracking :=
  if t.stages.cutting.status ≠ Status.completed then .error .precondition
  else if t.stages.sewing.status ≠ Status.completed then .error .precondition
  else if t.stages.ironing.status ≠ Status.pending ∨ allowedIroningState t = false then
    .error .precondition
  else .ok { t with
    stage := .ironing
    status := .inProgress
    arrivedAt := some now
    completedAt := none
    stages := { t.stages with
      ironing := { t.stages.ironing with status := .inProgress, arrivedAt := some now } }
    updatedAt := now }

/-- COMPLETE_IRONING branch of operate_production, tracking fields only: the
record is marked completed; the `stage` field is left untouched. -/
def completeIroningStep (t : Tracking) (now : Nat) : Except Err Tracking :=
  if t.stage ≠ Stage.ironing then .error .precondition
  else if t.status ≠ Status.inProgress then .error .precondition
  else .ok { t with
    status := .completed
    completedAt := some now
    stages := { t.stages with
      ironing := { t.stages.ironing with status := .completed, completedAt := some now } }
    updatedAt := now }

/-- DELETE (revert) branch of operate_production, tracking fields only: refused
at the first stage and when the previous stage is still pending; otherwise both
the previous and the current stage are reset to pending with cleared
timestamps, and the overview moves to the previous stage. -/
def revertStep (t : Tracking) (now : Nat) : Except Err Tracking :=
  if t.stage = Stage.cutting then .error .precondition
  else
    let prev := prevStage t.stage
    if (stageStateOf t.stages prev).status = Status.pending then .error .precondition
    else .ok { t with
      stage := prev
      status := .pending
      arrivedAt := none
      completedAt := none
      stages := setStageState (setStageState t.stages prev ⟨.pending, none, none⟩)
        t.stage ⟨.pending, none, none⟩
      updatedAt := now }

/-! ### Documents and the store -/

/-- An inventory document (src/server/app/models/inventory.py). -/
structure InventoryRecord where
  designId : String
  sizes : List (String × Int)
  totalAvailable : Int
  createdAt : Nat
  updatedAt : Nat
deriving DecidableEq

/-- A design document, restricted to the field this core reads:
`size_distribution` as (size, quantity) entries.  An entry whose `size` key is
missing or empty is modelled by the empty string. -/
structure Design where
  sizeDistribution : List (String × Int)
deriving DecidableEq

structure PaymentEntry where
  paymentAmount : ℚ
  paymentDate : Nat
  paymentNote : String
  remainingBalance : ℚ
deriving DecidableEq

structure StoredSaleItem where
  size : String
  quantity : Int
  sellingPrice : ℚ
  lineTotal : ℚ
deriving DecidableEq

/-- A sale document as written by the CREATE path of operate_sales.
`unitSellingPrice` is optional because older documents may lack the field
(the source falls back to `_extract_unit_price`). -/
structure Sale where
  customerName : String
  customerPhone : String
  designId : String
  items : List StoredSaleItem
  totalQuantity : Int
  totalAmount : ℚ
  unitSellingPrice : Option ℚ
  paymentType : PaymentType
  amountPaid : ℚ
  balance : ℚ
  paymentHistory : List PaymentEntry
  createdAt : Nat
  updatedAt : Nat
deriving DecidableEq

/-- Firestore collection: documents keyed by id. -/
def lookupDoc {α : Type} : List (String × α) → String → Option α
  | [], _ => none
  | p :: rest, k => if p.1 = k then some p.2 else lookupDoc rest k

def setDoc {α : Type} : List (String × α) → String → α → List (String × α)
  | [], k, v => [(k, v)]
  | p :: rest, k, v => if p.1 = k then (k, v) :: rest else p :: setDoc rest k v

def deleteDoc {α : Type} : List (String × α) → String → List (String × α)
  | [], _ => []
  | p :: rest, k => if p.1 = k then rest else p :: deleteDoc rest k

/-- The document store: the four collections this core touches. -/
structure DB where
  designs : List (String × Design)
  inventory : List (String × InventoryRecord)
  tracking : List (String × Tracking)
  sales : List (String × Sale)
deriving DecidableEq

/-! ### Inventory ledger (production.py `_get_design_size_map`, `_adjust_inventory`) -/

/-- The shared aggregation loop of `_get_design_size_map` and
`_normalize_sizes`: skip entries with a falsy size, sum duplicates. -/
def aggregateSizes (pairs : List (String × Int)) : List (String × Int) :=
  pairs.foldl (fun acc p => if p.1 = "" then acc else bumpQty acc p.1 p.2) []

/-- Embeds `_get_design_size_map(design_id)` from production.py. -/
def getDesignSizeMap (db : DB) (designId : String) : Except Err (List (String × Int)) :=
  match lookupDoc db.designs designId with
  | none => .error .notFound
  | some d => .ok (aggregateSizes d.sizeDistribution)

/-- The per-size update loop of `_adjust_inventory` on an existing record: new
quantities for the delta's sizes, then any extra sizes preserved unchanged. -/
def updatedSizes (sizeMap cur : List (String × Int)) (mult : Int) : List (String × Int) :=
  sizeMap.map (fun p => (p.1, getQty cur p.1 + p.2 * mult))
    ++ cur.filter (fun p => !(hasKey sizeMap p.1))

/-- Embeds `_adjust_inventory(design_id, multiplier)`.  On failure the store carried by
the error is the store at the raise point (nothing has been written). -/
def adjustInventory (db : DB) (designId : String) (mult : Int) (now : Nat) :
    Except (Err × DB) DB :=
  if mult = 0 then .ok db
  else
    match getDesignSizeMap db designId with
    | .error e => .error (e, db)
    | .ok sizeMap =>
      if sizeMap = [] then .ok db
      else
        let totalDelta := sumVals sizeMap * mult
        match lookupDoc db.inventory designId with
        | some inv =>
            if sizeMap.any (fun p => decide (getQty inv.sizes p.1 + p.2 * mult < 0)) then
              .error (.precondition, db)
            else
              let newTotal := inv.totalAvailable + totalDelta
              if newTotal < 0 then .error (.precondition, db)
              else
                let inv2 := { inv with
                  sizes := updatedSizes sizeMap inv.sizes mult
                  totalAvailable := newTotal
                  updatedAt := now }
                .ok { db with inventory := setDoc db.inventory designId inv2 }
        | none =>
            if mult < 0 then .error (.precondition, db)
            else
              let inv2 : InventoryRecord := {
                designId := designId
                sizes := sizeMap
                totalAvailable := sumVals sizeMap
                createdAt := now
                updatedAt := now }
              .ok { db with inventory := setDoc db.inventory designId inv2 }

/-! ### Store-level production operations (branches of `operate_production`) -/

/-- START_SEWING branch of operate_production. -/
def startSewing (db : DB) (trackingId : String) (now : Nat) : Except (Err × DB) DB :=
  if trackingId = "" then .error (.validation, db)
  else
    match lookupDoc db.tracking trackingId with
    | none => .error (.notFound, db)
    | some t =>
      match startSewingStep t now with
      | .error e => .error (e, db)
      | .ok t2 => .ok { db with tracking := setDoc db.tracking trackingId t2 }

/-- COMPLETE_IRONING branch of operate_production.  NOTE the write order of the
source: the tracking update is committed before the inventory credit, so a
failure inside `_adjust_inventory` leaves the tracking record already mutated. -/
def completeIroning (db : DB) (trackingId : String) (now : Nat) : Except (Err × DB) DB :=
  if trackingId = "" then .error (.validation, db)
  else
    match lookupDoc db.tracking trackingId with
    | none => .error (.notFound, db)
    | some t =>
      match completeIroningStep t now with
      | .error e => .error (e, db)
      | .ok t2 =>
        let db1 : DB := { db with tracking := setDoc db.tracking trackingId t2 }
        if t.designId = "" then .ok db1
        else adjustInventory db1 t.designId 1 now

/-- DELETE branch of operate_production (revert to previous stage).  The
LEVEL_2 permission check precedes the tracking fetch; the inventory debit, when
due, precedes the tracking update. -/
def revertProduction (db : DB) (trackingId : String) (lvl : AccessLevel) (now : Nat) :
    Except (Err × DB) DB :=
  if trackingId = "" then .error (.validation, db)
  else if lvl ≠ AccessLevel.level2 then .error (.permission, db)
  else
    match lookupDoc db.tracking trackingId with
    | none => .error (.notFound, db)
    | some t =>
      match revertStep t now with
      | .error e => .error (e, db)
      | .ok t2 =>
        let needDebit : Bool :=
          t.stage == Stage.ironing
            && (stageStateOf t.stages t.stage).status == Status.completed
            && t.designId != ""
        match (if needDebit then adjustInventory db t.designId (-1) now else .ok db) with
        | .error e => .error e
        | .ok db1 => .ok { db1 with tracking := setDoc db1.tracking trackingId t2 }

/-! ### Sales (src/server/app/routers/sale.py, models/sale.py) -/

structure SaleItem where
  size : String
  quantity : Int
deriving DecidableEq

/-- Payload for the sale CREATE action, as the router sees it (the pydantic
phone validator has already stripped `customerPhone`). -/
structure SaleCreatePayload where
  customerName : String
  customerPhone : String
  designId : String
  sellingPricePerPiece : ℚ
  items : List SaleItem
  paymentType : PaymentType
  amountPaid : ℚ
deriving DecidableEq

/-- pydantic validation of SaleCreatePayload: price > 0, at least one item,
each quantity > 0, amount_paid ≥ 0, stripped phone at least 7 characters.
Note that an item's `size` may be any string, the empty string included. -/
def createPayloadValid (p : SaleCreatePayload) : Bool :=
  decide (0 < p.sellingPricePerPiece) && !p.items.isEmpty
    && p.items.all (fun it => decide (0 < it.quantity))
    && decide (0 ≤ p.amountPaid) && decide (7 ≤ p.customerPhone.length)

structure SaleUpdatePayload where
  customerName : Option String
  customerPhone : Option String
  items : Option (List SaleItem)
deriving DecidableEq

/-- pydantic validation of SaleUpdatePayload. -/
def updatePayloadValid (p : SaleUpdatePayload) : Bool :=
  (match p.customerPhone with
   | some ph => decide (7 ≤ ph.length)
   | none => true)
    && (match p.items with
        | some its => !its.isEmpty && its.all (fun it => decide (0 < it.quantity))
        | none => true)

def payloadPairs (items : List SaleItem) : List (String × Int) :=
  items.map (fun it => (it.size, it.quantity))

def storedPairs (items : List StoredSaleItem) : List (String × Int) :=
  items.map (fun it => (it.size, it.quantity))

/-- Float tolerance used by the source's money comparisons. -/
def tol : ℚ := 1 / 1000000

/-- Embeds `_build_line_items(payload_items, unit_price)`: the stored line items, the
total quantity (counting every item, whatever its size), and the total amount. -/
def buildLineItems (items : List SaleItem) (unitPrice : ℚ) :
    List StoredSaleItem × Int × ℚ :=
  (items.map (fun it => ⟨it.size, it.quantity, unitPrice, unitPrice * (it.quantity : ℚ)⟩),
    (items.map (fun it => it.quantity)).sum,
    (items.map (fun it => unitPrice * (it.quantity : ℚ))).sum)

/-- Embeds `_extract_unit_price(items, default)`: all stored selling prices must agree
within the tolerance; falls back to the default, else errors. -/
def extractUnitPrice (items : List StoredSaleItem) (default : Option ℚ) : Except Err ℚ :=
  match items.map (fun it => it.sellingPrice) with
  | [] =>
      match default with
      | some d => .ok d
      | none => .error .validation
  | base :: rest =>
      if rest.any (fun price => decide (|price - base| > tol)) then .error .precondition
      else .ok base

/-- The per-size check-and-subtract loop of the sale CREATE/UPDATE paths:
fails at the first size whose available stock is below the requested quantity. -/
def debitSizes : List (String × Int) → List (String × Int) → Option (List (String × Int))
  | cur, [] => some cur
  | cur, (s, q) :: rest =>
      if getQty cur s < q then none
      else debitSizes (setQty cur s (getQty cur s - q)) rest

/-- The per-size restock loop of the sale UPDATE/DELETE paths. -/
def creditSizes : List (String × Int) → List (String × Int) → List (String × Int)
  | cur, [] => cur
  | cur, (s, q) :: rest => creditSizes (bumpQty cur s q) rest

/-- CREATE branch of operate_sales.  `newId` is the id Firestore assigns to the
new sale document. -/
def saleCreate (db : DB) (p : SaleCreatePayload) (now : Nat) (newId : String) :
    Except (Err × DB) DB :=
  if createPayloadValid p = false then .error (.validation, db)
  else
    match lookupDoc db.inventory p.designId with
    | none => .error (.notFound, db)
    | some inv =>
      let sizeTotals := aggregateSizes (payloadPairs p.items)
      let unitPrice := p.sellingPricePerPiece
      match debitSizes inv.sizes sizeTotals with
      | none => .error (.precondition, db)
      | some newSizes =>
        let built := buildLineItems p.items unitPrice
        let totalQuantity := built.2.1
        let totalAmount := built.2.2
        if p.paymentType = PaymentType.cash ∧ |p.amountPaid - totalAmount| > tol then
          .error (.precondition, db)
        else if p.paymentType = PaymentType.credit ∧ p.amountPaid - totalAmount > tol then
          .error (.precondition, db)
        else
          let balance := totalAmount - p.amountPaid
          if balance < -tol then .error (.precondition, db)
          else
            let remainingTotal := inv.totalAvailable - totalQuantity
            if remainingTotal < 0 then .error (.precondition, db)
            else
              let history : List PaymentEntry :=
                if 0 < p.amountPaid then
                  [⟨p.amountPaid, now, "Initial payment", max balance 0⟩]
                else []
              let inv2 := { inv with
                sizes := newSizes
                totalAvailable := remainingTotal
                updatedAt := now }
              let sale : Sale := {
                customerName := p.customerName
                customerPhone := p.customerPhone
                designId := p.designId
                items := built.1
                totalQuantity := totalQuantity
                totalAmount := totalAmount
                unitSellingPrice := some unitPrice
                paymentType := p.paymentType
                amountPaid := p.amountPaid
                balance := max balance 0
                paymentHistory := history
                createdAt := now
                updatedAt := now }
              let db1 : DB := { db with inventory := setDoc db.inventory p.designId inv2 }
              .ok { db1 with sales := setDoc db1.sales newId sale }

/-- UPDATE branch of operate_sales. -/
def saleUpdate (db : DB) (saleId : String) (p : SaleUpdatePayload) (now : Nat) :
    Except (Err × DB) DB :=
  if updatePayloadValid p = false then .error (.validation, db)
  else
    match lookupDoc db.sales saleId with
    | none => .error (.notFound, db)
    | some sale =>
      if sale.balance > tol then .error (.precondition, db)
      else if sale.designId = "" then .error (.precondition, db)
      else
        match lookupDoc db.inventory sale.designId with
        | none => .error (.notFound, db)
        | some inv =>
          let oldTotals := aggregateSizes (storedPairs sale.items)
          match (match sale.unitSellingPrice with
                 | some up => Except.ok up
                 | none => extractUnitPrice sale.items none) with
          | .error e => .error (e, db)
          | .ok unitPrice =>
            match p.items with
            | none =>
              if p.customerName = none ∧ p.customerPhone = none then
                .error (.validation, db)
              else
                let sale2 := { sale with
                  customerName := p.customerName.getD sale.customerName
                  customerPhone := p.customerPhone.getD sale.customerPhone
                  updatedAt := now }
                .ok { db with sales := setDoc db.sales saleId sale2 }
            | some newItems =>
              let newTotals := aggregateSizes (payloadPairs newItems)
              match debitSizes (creditSizes inv.sizes oldTotals) newTotals with
              | none => .error (.precondition, db)
              | some finalSizes =>
                let built := buildLineItems newItems unitPrice
                let totalNew := built.2.1
                let totalAmount := built.2.2
                if |totalAmount - sale.totalAmount| > tol then .error (.precondition, db)
                else
                  let totalOld := sumVals oldTotals
                  let remainingTotal := inv.totalAvailable + totalOld - totalNew
                  if remainingTotal < 0 then .error (.precondition, db)
                  else
                    let inv2 := { inv with
                      sizes := finalSizes
                      totalAvailable := remainingTotal
                      updatedAt := now }
                    let sale2 := { sale with
                      customerName := p.customerName.getD sale.customerName
                      customerPhone := p.customerPhone.getD sale.customerPhone
                      items := built.1
                      totalQuantity := totalNew
                      totalAmount := totalAmount
                      unitSellingPrice := some unitPrice
                      updatedAt := now }
                    let db1 : DB :=
                      { db with inventory := setDoc db.inventory sale.designId inv2 }
                    .ok { db1 with sales := setDoc db1.sales saleId sale2 }

/-- DELETE branch of operate_sales: credit the inventory back, delete the sale.
Deleting a sale with outstanding balance needs LEVEL_2. -/
def saleDelete (db : DB) (saleId : String) (lvl : AccessLevel) (now : Nat) :
    Except (Err × DB) DB :=
  match lookupDoc db.sales saleId with
  | none => .error (.notFound, db)
  | some sale =>
    if sale.balance > tol ∧ lvl ≠ AccessLevel.level2 then .error (.permission, db)
    else if sale.designId = "" then
      .ok { db with sales := deleteDoc db.sales saleId }
    else
      match lookupDoc db.inventory sale.designId with
      | none => .error (.notFound, db)
      | some inv =>
        let saleTotals := aggregateSizes (storedPairs sale.items)
        let totalReturn := sumVals saleTotals
        let inv2 := { inv with
          sizes := creditSizes inv.sizes saleTotals
          totalAvailable := inv.totalAvailable + totalReturn
          updatedAt := now }
        let db1 : DB := { db with inventory := setDoc db.inventory sale.designId inv2 }
        .ok { db1 with sales := deleteDoc db1.sales saleId }

/-! ### The Consistency Coordinator operations (spec §4.3) -/

/-- The coordinated multi-document operations: sale create, sale update, sale
delete, ironing completion, revert. -/
inductive CoordOp where
  | saleCreateOp (p : SaleCreatePayload) (newId : String)
  | saleUpdateOp (saleId : String) (p : SaleUpdatePayload)
  | saleDeleteOp (saleId : String) (lvl : AccessLevel)
  | completeIroningOp (trackingId : String)
  | revertOp (trackingId : String) (lvl : AccessLevel)

def runCoord (db : DB) (op : CoordOp) (now : Nat) : Except (Err × DB) DB :=
  match op with
  | .saleCreateOp p newId => saleCreate db p now newId
  | .saleUpdateOp saleId p => saleUpdate db saleId p now
  | .saleDeleteOp saleId lvl => saleDelete db saleId lvl now
  | .completeIroningOp tid => completeIroning db tid now
  | .revertOp tid lvl => revertProduction db tid lvl now

def isIroningOp : CoordOp → Bool
  | .completeIroningOp _ => true
  | _ => false

/-! ### Store-level predicates -/

/-- Spec §3 invariant: every inventory record's total equals its size sum. -/
def invConsistent (db : DB) : Prop :=
  ∀ pr ∈ db.inventory, sumVals pr.2.sizes = pr.2.totalAvailable

/-- Dict well-formedness of every stored sizes mapping. -/
def invWF (db : DB) : Prop :=
  ∀ pr ∈ db.inventory, keysNodup pr.2.sizes

/-- Spec §8 invariant: no stored size quantity, and no stored total, is negative. -/
def invNonneg (db : DB) : Prop :=
  ∀ pr ∈ db.inventory, allNonneg pr.2.sizes ∧ 0 ≤ pr.2.totalAvailable

/-- Every design's size_distribution quantities are non-negative. -/
def designsNonneg (db : DB) : Prop :=
  ∀ pr ∈ db.designs, ∀ q ∈ pr.2.sizeDistribution, 0 ≤ q.2

/-- Every stored sale's item quantities are non-negative. -/
def salesNonneg (db : DB) : Prop :=
  ∀ pr ∈ db.sales, ∀ it ∈ pr.2.items, 0 ≤ it.quantity

instance (db : DB) : Decidable (invConsistent db) := by
  unfold invConsistent
  infer_instance

instance (db : DB) : Decidable (invWF db) := by
  unfold invWF
  infer_instance

instance (db : DB) : Decidable (invNonneg db) := by
  unfold invNonneg
  infer_instance

instance (db : DB) : Decidable (designsNonneg db) := by
  unfold designsNonneg
  infer_instance

instance (db : DB) : Decidable (salesNonneg db) := by
  unfold salesNonneg
  infer_instance

/-! ### Conditions and concrete stores used by the claims -/

/-- Requests whose payload items all carry a nonempty size (the condition the
C2 counterexample forces; trivially true for the non-sale operations). -/
def itemsNonemptySizes : CoordOp → Prop
  | .saleCreateOp p _ => ∀ it ∈ p.items, it.size ≠ ""
  | .saleUpdateOp _ p => ∀ its, p.items = some its → ∀ it ∈ its, it.size ≠ ""
  | _ => True

def dbEmpty : DB := ⟨[], [], [], []⟩

/-- A tracking record sitting at IRONING / IN_PROGRESS for design d1. -/
def c1track : Tracking :=
  ⟨"d1", .ironing, .inProgress, some 0, none,
    ⟨⟨.completed, some 0, some 0⟩, ⟨.completed, some 0, some 0⟩,
      ⟨.inProgress, some 0, none⟩⟩, 0⟩

/-- The same record after COMPLETE_IRONING has marked it completed at time 5. -/
def c1track2 : Tracking :=
  ⟨"d1", .ironing, .completed, some 0, some 5,
    ⟨⟨.completed, some 0, some 0⟩, ⟨.completed, some 0, some 0⟩,
      ⟨.completed, some 0, some 5⟩⟩, 5⟩

/-- Store with the ironing-in-progress record but no design document d1. -/
def c1db : DB := ⟨[], [], [("t1", c1track)], []⟩

def c1dbAfter : DB := ⟨[], [], [("t1", c1track2)], []⟩

def c2db : DB := ⟨[], [("d", ⟨"d", [("S", 5)], 5, 0, 0⟩)], [], []⟩

/-- A pydantic-valid sale payload whose first item has an empty size string. -/
def c2payload : SaleCreatePayload :=
  ⟨"c", "0712345", "d", 1, [⟨"", 2⟩, ⟨"S", 1⟩], .cash, 3⟩

def c2saleAfter : Sale :=
  ⟨"c", "0712345", "d", [⟨"", 2, 1, 2⟩, ⟨"S", 1, 1, 1⟩], 3, 3, some 1, .cash, 3, 0,
    [⟨3, 7, "Initial payment", 0⟩], 7, 7⟩

def c2dbAfter : DB :=
  ⟨[], [("d", ⟨"d", [("S", 4)], 2, 0, 7⟩)], [], [("s1", c2saleAfter)]⟩

/-- A design whose size_distribution carries a negative quantity (nothing in
the design model forbids it: `SizeInfo.quantity` is a plain int). -/
def c3db : DB := ⟨[("d", ⟨[("S", -5)]⟩)], [], [], []⟩

def c3dbAfter : DB :=
  ⟨[("d", ⟨[("S", -5)]⟩)], [("d", ⟨"d", [("S", -5)], -5, 3, 3⟩)], [], []⟩

/-- Scenario A of the spec: design d with sizes S:2, M:3, tracking record at
IRONING/IN_PROGRESS, no inventory record yet. -/
def wprodTrack : Tracking :=
  ⟨"d", .ironing, .inProgress, some 0, none,
    ⟨⟨.completed, some 0, some 0⟩, ⟨.completed, some 0, some 0⟩,
      ⟨.inProgress, some 0, none⟩⟩, 0⟩

def wprodTrack2 : Tracking :=
  ⟨"d", .ironing, .completed, some 0, some 9,
    ⟨⟨.completed, some 0, some 0⟩, ⟨.completed, some 0, some 0⟩,
      ⟨.completed, some 0, some 9⟩⟩, 9⟩

def wprodDb : DB := ⟨[("d", ⟨[("S", 2), ("M", 3)]⟩)], [], [("t1", wprodTrack)], []⟩

def wprodAfter : DB :=
  ⟨[("d", ⟨[("S", 2), ("M", 3)]⟩)],
    [("d", ⟨"d", [("S", 2), ("M", 3)], 5, 9, 9⟩)], [("t1", wprodTrack2)], []⟩

/-- A design document with an empty size_distribution. -/
def c6db : DB := ⟨[("d", ⟨[]⟩)], [], [], []⟩

def c6wdb : DB := ⟨[("d", ⟨[("S", 2)]⟩)], [], [], []⟩

def c7track : Tracking :=
  ⟨"d", .sewing, .pending, none, none,
    ⟨⟨.completed, some 0, some 0⟩, ⟨.pending, none, none⟩, ⟨.pending, none, none⟩⟩, 0⟩

def c7db : DB := ⟨[], [], [("t1", c7track)], []⟩

def c8db : DB :=
  ⟨[("d", ⟨[("S", 1)]⟩)], [("d", ⟨"d", [("S", 2), ("L", 7)], 9, 0, 0⟩)], [], []⟩

def c8after : DB :=
  ⟨[("d", ⟨[("S", 1)]⟩)], [("d", ⟨"d", [("S", 3), ("L", 7)], 10, 0, 4⟩)], [], []⟩

def c9track : Tracking :=
  ⟨"", .ironing, .inProgress, some 0, none,
    ⟨⟨.completed, some 0, some 0⟩, ⟨.completed, some 0, some 0⟩,
      ⟨.inProgress, some 0, none⟩⟩, 0⟩

def c9db : DB := ⟨[], [], [("t1", c9track)], []⟩

instance : Fintype Stage where
  elems := ⟨[Stage.cutting, Stage.sewing, Stage.ironing], by decide⟩
  complete := by intro x; cases x <;> decide

/-! ### The stage invariant and reachable tracking records (claim C5) -/

/-- The sub-status of stage `s` given the three stages' statuses. -/
def stageStatusView (cs ss is : Status) : Stage → Status
  | .cutting => cs
  | .sewing => ss
  | .ironing => is

/-- The stage/status coherence invariant on the five status components: the
current stage's entry mirrors the overview status, stages strictly before the
current one are COMPLETED, strictly after are PENDING, and while the overview
is IN_PROGRESS exactly one stage has sub-status IN_PROGRESS. -/
def trackInvView (stg : Stage) (sts cs ss is : Status) : Prop :=
  stageStatusView cs ss is stg = sts ∧
  (∀ s : Stage, stageIdx s < stageIdx stg →
    stageStatusView cs ss is s = Status.completed) ∧
  (∀ s : Stage, stageIdx stg < stageIdx s →
    stageStatusView cs ss is s = Status.pending) ∧
  (sts = Status.inProgress →
    ([cs, ss, is].countP (fun st => st == Status.inProgress)) = 1)

instance (stg : Stage) (sts cs ss is : Status) :
    Decidable (trackInvView stg sts cs ss is) := by
  unfold trackInvView
  infer_instance

/-- The stage/status coherence invariant of spec §3 and §8 for one tracking
record. -/
def trackInv (t : Tracking) : Prop :=
  trackInvView t.stage t.status t.stages.cutting.status t.stages.sewing.status
    t.stages.ironing.status

instance (t : Tracking) : Decidable (trackInv t) := by
  unfold trackInv
  infer_instance

/-- Tracking records reachable from creation (START_CUTTING) through any
sequence of the six stage transitions and revert.  The transitions' tracking
effects do not depend on the inventory, so the relation is on records alone;
an operation whose inventory step fails leaves the record unchanged, which is
already in the set. -/
inductive Reach : Tracking → Prop where
  | create (d : String) (now : Nat) : Reach (newTracking d now)
  | reset (t : Tracking) (now : Nat) : Reach t → Reach (resetTracking t now)
  | completeCutting (t t2 : Tracking) (now : Nat) : Reach t →
      completeCuttingStep t now = .ok t2 → Reach t2
  | startSewing (t t2 : Tracking) (now : Nat) : Reach t →
      startSewingStep t now = .ok t2 → Reach t2
  | completeSewing (t t2 : Tracking) (now : Nat) : Reach t →
      completeSewingStep t now = .ok t2 → Reach t2
  | startIroning (t t2 : Tracking) (now : Nat) : Reach t →
      startIroningStep t now = .ok t2 → Reach t2
  | completeIroning (t t2 : Tracking) (now : Nat) : Reach t →
      completeIroningStep t now = .ok t2 → Reach t2
  | revert (t t2 : Tracking) (now : Nat) : Reach t →
      revertStep t now = .ok t2 → Reach t2

def c4track : Tracking :=
  ⟨"d", .ironing, .inProgress, some 0, none,
    ⟨⟨.completed, some 0, some 0⟩, ⟨.completed, some 0, some 0⟩,
      ⟨.inProgress, some 0, none⟩⟩, 0⟩

def c4db : DB :=
  ⟨[("d", ⟨[("S", 2), ("M", 3)]⟩)], [("d", ⟨"d", [("S", 1), ("M", 0)], 1, 0, 0⟩)],
    [("t1", c4track)], []⟩

/-! ### Dict lemmas -/

theorem getQty_setQty_self (l : List (String × Int)) (s : String) (v : Int) :
    getQty (setQty l s v) s = v := by
  induction l with
  | nil => simp [setQty, getQty]
  | cons p rest ih =>
      by_cases h : p.1 = s
      · simp [setQty, h, getQty]
      · simp [setQty, h, getQty, ih]

theorem getQty_setQty_ne (l : List (String × Int)) {s t : String} (v : Int)
    (h : s ≠ t) : getQty (setQty l s v) t = getQty l t := by
  induction l with
  | nil => simp [setQty, getQty, h]
  | cons p rest ih =>
      by_cases hp : p.1 = s
      · subst hp
        simp [setQty, getQty, h, ih]
      · simp [setQty, hp, getQty]
        by_cases hq : p.1 = t
        · simp [hq]
        · simp [hq, ih]

theorem sumVals_setQty (l : List (String × Int)) (s : String) (v : Int) :
    sumVals (setQty l s v) = sumVals l + v - getQty l s := by
  induction l with
  | nil => simp [setQty, sumVals, getQty]
  | cons p rest ih =>
      by_cases h : p.1 = s
      · simp [setQty, h, sumVals, getQty]
        ring
      · simp [setQty, h, sumVals, getQty] at *
        omega

theorem sumVals_bumpQty (l : List (String × Int)) (s : String) (q : Int) :
    sumVals (bumpQty l s q) = sumVals l + q := by
  unfold bumpQty
  rw [sumVals_setQty]
  ring

theorem sumVals_append (a b : List (String × Int)) :
    sumVals (a ++ b) = sumVals a + sumVals b := by
  simp [sumVals]

theorem getQty_eq_zero_of_not_hasKey (l : List (String × Int)) (s : String)
    (h : hasKey l s = false) : getQty l s = 0 := by
  induction l with
  | nil => simp [getQty]
  | cons p rest ih =>
      simp [hasKey] at h
      simp [getQty, h.1, ih h.2]

theorem hasKey_setQty (l : List (String × Int)) (s t : String) (v : Int) :
    hasKey (setQty l s v) t = (s = t || hasKey l t) := by
  induction l with
  | nil => simp [setQty, hasKey]
  | cons p rest ih =>
      by_cases h : p.1 = s
      · subst h
        simp [setQty, hasKey]
      · simp [setQty, h, hasKey, ih]
        by_cases hq : p.1 = t
        · simp [hq]
        · simp [hq]

theorem keys_setQty (l : List (String × Int)) (s : String) (v : Int) :
    (setQty l s v).map (fun p => p.1) =
      if hasKey l s then l.map (fun p => p.1) else l.map (fun p => p.1) ++ [s] := by
  induction l with
  | nil => simp [setQty, hasKey]
  | cons p rest ih =>
      by_cases hp : p.1 = s
      · subst hp
        simp [setQty, hasKey]
      · simp [setQty, hp, hasKey, ih]
        by_cases hk : hasKey rest s
        · simp [hk]
        · simp [hk]

theorem mem_keys_of_hasKey (l : List (String × Int)) (s : String)
    (h : hasKey l s = true) : s ∈ l.map (fun p => p.1) := by
  induction l with
  | nil => simp [hasKey] at h
  | cons p rest ih =>
      simp [hasKey] at h
      rcases h with h | h
      · simp [h]
      · simp [ih h]

theorem hasKey_of_mem_keys (l : List (String × Int)) (s : String)
    (h : s ∈ l.map (fun p => p.1)) : hasKey l s = true := by
  induction l with
  | nil => simp at h
  | cons p rest ih =>
      simp at h
      rcases h with h | ⟨x, hx⟩
      · simp [hasKey, h]
      · have hs : s ∈ rest.map (fun p => p.1) := by
          simp
          exact ⟨x, hx⟩
        simp [hasKey, ih hs]

theorem keysNodup_setQty (l : List (String × Int)) (s : String) (v : Int)
    (h : keysNodup l) : keysNodup (setQty l s v) := by
  unfold keysNodup at *
  rw [keys_setQty]
  by_cases hk : hasKey l s
  · simp [hk, h]
  · rw [if_neg (by simp [hk])]
    rw [List.nodup_append]
    refine ⟨h, List.nodup_singleton s, ?_⟩
    intro a ha hb
    simp at hb
    subst hb
    exact absurd (hasKey_of_mem_keys l a ha) (by simp [hk])

theorem getQty_filter_key (pred : String → Bool) (cur : List (String × Int))
    (s : String) (h : pred s = true) :
    getQty (cur.filter (fun p => pred p.1)) s = getQty cur s := by
  induction cur with
  | nil => simp [getQty]
  | cons p rest ih =>
      by_cases hp : p.1 = s
      · subst hp
        simp [List.filter, h, getQty]
      · by_cases hpred : pred p.1
        · simp [List.filter, hpred, getQty, hp, ih]
        · simp [List.filter, hpred, getQty, hp, ih]

theorem hasKey_filter_false (pred : String → Bool) (cur : List (String × Int))
    (s : String) (h : pred s = false) :
    hasKey (cur.filter (fun p => pred p.1)) s = false := by
  induction cur with
  | nil => simp [hasKey]
  | cons p rest ih =>
      by_cases hpred : pred p.1
      · simp [List.filter, hpred, hasKey, ih]
        intro he
        rw [he] at hpred
        simp [h] at hpred
      · simp [List.filter, hpred, ih]

theorem keysNodup_filter (pred : (String × Int) → Bool) (cur : List (String × Int))
    (h : keysNodup cur) : keysNodup (cur.filter pred) := by
  unfold keysNodup at *
  exact h.sublist (List.Sublist.map _ (List.filter_sublist cur))

/-- Splitting a well-formed dict's value sum at one key. -/
theorem sumVals_split_key (cur : List (String × Int)) (s : String)
    (h : keysNodup cur) :
    sumVals cur = getQty cur s + sumVals (cur.filter (fun p => p.1 != s)) := by
  induction cur with
  | nil => simp [sumVals, getQty]
  | cons p rest ih =>
      obtain ⟨a, v⟩ := p
      simp [keysNodup] at h
      by_cases hp : a = s
      · subst hp
        have hrest : rest.filter (fun q => q.1 != a) = rest := by
          rw [List.filter_eq_self]
          intro q hq
          simp
          intro he
          have hmem : (a, q.2) ∈ rest := by
            rw [← he]
            simpa using hq
          exact h.1 q.2 hmem
        simp [sumVals, getQty, List.filter_cons, hrest]
      · have hrest : keysNodup rest := h.2
        have hrec := ih hrest
        simp [sumVals, getQty, List.filter_cons, hp] at hrec ⊢
        omega

theorem getQty_append (a b : List (String × Int)) (s : String) :
    getQty (a ++ b) s = if hasKey a s then getQty a s else getQty b s := by
  induction a with
  | nil => simp [getQty, hasKey]
  | cons p rest ih =>
      by_cases hp : p.1 = s
      · simp [getQty, hasKey, hp]
      · simp [getQty, hasKey, hp, ih]

/-- The sum of looked-up values over the keys of a well-formed delta dict,
plus the values at keys outside the delta, recovers the full value sum. -/
theorem sumGet_add_rest (m cur : List (String × Int))
    (hm : keysNodup m) (hc : keysNodup cur) :
    (m.map (fun p => getQty cur p.1)).sum
      + sumVals (cur.filter (fun p => !(hasKey m p.1))) = sumVals cur := by
  induction m generalizing cur with
  | nil =>
      simp [hasKey, sumVals]
  | cons q m' ih =>
      obtain ⟨a, v⟩ := q
      simp [keysNodup] at hm
      have hq : ∀ p ∈ m', p.1 ≠ a := by
        intro p hp he
        have hmem : (a, p.2) ∈ m' := by
          rw [← he]
          simpa using hp
        exact hm.1 p.2 hmem
      have hm' : keysNodup m' := hm.2
      -- restrict cur to keys other than a
      set cur' := cur.filter (fun p => p.1 != a) with hcur'
      have hc' : keysNodup cur' := keysNodup_filter _ cur hc
      have hsplit : sumVals cur = getQty cur a + sumVals cur' :=
        sumVals_split_key cur a hc
      have hmapeq : m'.map (fun p => getQty cur p.1) = m'.map (fun p => getQty cur' p.1) := by
        apply List.map_congr_left
        intro p hp
        rw [hcur']
        rw [getQty_filter_key (fun k => k != a) cur p.1 (by simp [hq p hp])]
      have hfilter : cur.filter (fun p => !(hasKey ((a, v) :: m') p.1))
          = cur'.filter (fun p => !(hasKey m' p.1)) := by
        rw [hcur', List.filter_filter]
        apply List.filter_congr
        intro p hp
        by_cases hE : p.1 = a
        · simp [hasKey, hE, bne]
        · have h2 : decide (a = p.1) = false := by
            simp
            exact fun h => hE h.symm
          cases hB : hasKey m' p.1 <;> simp [hasKey, hB, hE, h2, bne]
      have hrec := ih cur' hm' hc'
      rw [hfilter] at *
      simp only [List.map_cons, List.sum_cons, hmapeq]
      omega

/-- Non-negativity lemmas. -/
theorem getQty_nonneg (l : List (String × Int)) (s : String) (h : allNonneg l) :
    0 ≤ getQty l s := by
  induction l with
  | nil => simp [getQty]
  | cons p rest ih =>
      by_cases hp : p.1 = s
      · simp [getQty, hp]
        exact h p (by simp)
      · simp [getQty, hp]
        exact ih (fun q hq => h q (by simp [hq]))

theorem allNonneg_setQty (l : List (String × Int)) (s : String) (v : Int)
    (h : allNonneg l) (hv : 0 ≤ v) : allNonneg (setQty l s v) := by
  induction l with
  | nil =>
      intro p hp
      simp [setQty] at hp
      simp [hp, hv]
  | cons q rest ih =>
      by_cases hq : q.1 = s
      · intro p hp
        simp [setQty, hq] at hp
        rcases hp with hp | hp
        · simp [hp, hv]
        · exact h p (by simp [hp])
      · intro p hp
        simp [setQty, hq] at hp
        rcases hp with hp | hp
        · exact h p (by simp [hp])
        · exact ih (fun r hr => h r (by simp [hr])) p hp

theorem allNonneg_filter (pred : (String × Int) → Bool) (l : List (String × Int))
    (h : allNonneg l) : allNonneg (l.filter pred) := by
  intro p hp
  exact h p (List.mem_of_mem_filter hp)

theorem allNonneg_append (a b : List (String × Int))
    (ha : allNonneg a) (hb : allNonneg b) : allNonneg (a ++ b) := by
  intro p hp
  rcases List.mem_append.mp hp with hp | hp
  · exact ha p hp
  · exact hb p hp

/-! ### Collection and delta-map lemmas -/

theorem lookupDoc_setDoc_self {α : Type} (l : List (String × α)) (k : String) (v : α) :
    lookupDoc (setDoc l k v) k = some v := by
  induction l with
  | nil => simp [setDoc, lookupDoc]
  | cons p rest ih =>
      by_cases h : p.1 = k
      · simp [setDoc, h, lookupDoc]
      · simp [setDoc, h, lookupDoc, ih]

theorem lookupDoc_setDoc_ne {α : Type} (l : List (String × α)) {k j : String} (v : α)
    (h : k ≠ j) : lookupDoc (setDoc l k v) j = lookupDoc l j := by
  induction l with
  | nil => simp [setDoc, lookupDoc, h]
  | cons p rest ih =>
      by_cases hp : p.1 = k
      · subst hp
        simp [setDoc, lookupDoc, h, ih]
      · simp [setDoc, hp, lookupDoc]
        by_cases hq : p.1 = j
        · simp [hq]
        · simp [hq, ih]

theorem forall_mem_setDoc {α : Type} (P : String × α → Prop) (l : List (String × α))
    (k : String) (v : α) (hl : ∀ p ∈ l, P p) (hv : P (k, v)) :
    ∀ p ∈ setDoc l k v, P p := by
  induction l with
  | nil =>
      intro p hp
      simp [setDoc] at hp
      simp [hp, hv]
  | cons q rest ih =>
      intro p hp
      by_cases hq : q.1 = k
      · simp [setDoc, hq] at hp
        rcases hp with hp | hp
        · simp [hp, hv]
        · exact hl p (by simp [hp])
      · simp [setDoc, hq] at hp
        rcases hp with hp | hp
        · exact hl p (by simp [hp])
        · exact ih (fun r hr => hl r (by simp [hr])) p hp

theorem forall_mem_deleteDoc {α : Type} (P : String × α → Prop) (l : List (String × α))
    (k : String) (hl : ∀ p ∈ l, P p) : ∀ p ∈ deleteDoc l k, P p := by
  induction l with
  | nil =>
      intro p hp
      simp [deleteDoc] at hp
  | cons q rest ih =>
      intro p hp
      by_cases hq : q.1 = k
      · simp [deleteDoc, hq] at hp
        exact hl p (by simp [hp])
      · simp [deleteDoc, hq] at hp
        rcases hp with hp | hp
        · exact hl p (by simp [hp])
        · exact ih (fun r hr => hl r (by simp [hr])) p hp

theorem keys_map_pair (m : List (String × Int)) (f : String × Int → Int) :
    (m.map (fun p => (p.1, f p))).map (fun p => p.1) = m.map (fun p => p.1) := by
  induction m with
  | nil => simp
  | cons p rest ih => simp [ih]

theorem hasKey_map_pair (m : List (String × Int)) (f : String × Int → Int) (s : String) :
    hasKey (m.map (fun p => (p.1, f p))) s = hasKey m s := by
  induction m with
  | nil => simp [hasKey]
  | cons p rest ih => simp [hasKey, ih]

theorem getQty_map_of_mem (m : List (String × Int)) (f : String → Int → Int) (s : String)
    (hm : keysNodup m) (hs : hasKey m s = true) :
    getQty (m.map (fun p => (p.1, f p.1 p.2))) s = f s (getQty m s) := by
  induction m with
  | nil => simp [hasKey] at hs
  | cons p rest ih =>
      by_cases hp : p.1 = s
      · subst hp
        simp [getQty]
      · simp [hasKey, hp] at hs
        have hrest : keysNodup rest := by
          simp [keysNodup] at hm
          exact hm.2
        simp [getQty, hp, ih hrest hs]

/-- A key held in the delta map: its stored quantity after `updatedSizes` is the
old quantity plus the signed delta amount. -/
theorem getQty_updatedSizes_mem (m cur : List (String × Int)) (mult : Int) (s : String)
    (hm : keysNodup m) (hs : hasKey m s = true) :
    getQty (updatedSizes m cur mult) s = getQty cur s + getQty m s * mult := by
  unfold updatedSizes
  rw [getQty_append]
  rw [hasKey_map_pair m (fun p => getQty cur p.1 + p.2 * mult) s]
  rw [if_pos hs]
  exact getQty_map_of_mem m (fun k v => getQty cur k + v * mult) s hm hs

/-- A key absent from the delta map keeps its stored quantity. -/
theorem getQty_updatedSizes_not_mem (m cur : List (String × Int)) (mult : Int) (s : String)
    (hs : hasKey m s = false) :
    getQty (updatedSizes m cur mult) s = getQty cur s := by
  unfold updatedSizes
  rw [getQty_append]
  rw [hasKey_map_pair m (fun p => getQty cur p.1 + p.2 * mult) s]
  rw [if_neg (by simp [hs])]
  exact getQty_filter_key (fun k => !(hasKey m k)) cur s (by simp [hs])

theorem sumVals_map_pair (m : List (String × Int)) (f : String × Int → Int) :
    sumVals (m.map (fun p => (p.1, f p))) = (m.map f).sum := by
  induction m with
  | nil => simp [sumVals]
  | cons p rest ih => simp [sumVals] at ih ⊢; omega

theorem sum_map_add_pair (l : List (String × Int)) (f g : String × Int → Int) :
    (l.map (fun p => f p + g p)).sum = (l.map f).sum + (l.map g).sum := by
  induction l with
  | nil => simp
  | cons p rest ih => simp [ih]; omega

theorem sum_map_mul_right (l : List (String × Int)) (mult : Int) :
    (l.map (fun p => p.2 * mult)).sum = (l.map (fun p => p.2)).sum * mult := by
  induction l with
  | nil => simp
  | cons p rest ih => simp [ih]; ring

theorem sumVals_updatedSizes (m cur : List (String × Int)) (mult : Int)
    (hm : keysNodup m) (hc : keysNodup cur) :
    sumVals (updatedSizes m cur mult) = sumVals cur + sumVals m * mult := by
  unfold updatedSizes
  rw [sumVals_append]
  have h1 : sumVals (m.map (fun p => (p.1, getQty cur p.1 + p.2 * mult)))
      = (m.map (fun p => getQty cur p.1)).sum + sumVals m * mult := by
    rw [sumVals_map_pair]
    rw [sum_map_add_pair m (fun p => getQty cur p.1) (fun p => p.2 * mult)]
    rw [sum_map_mul_right]
    rfl
  have h2 := sumGet_add_rest m cur hm hc
  linarith [h1, h2]

theorem keysNodup_updatedSizes (m cur : List (String × Int)) (mult : Int)
    (hm : keysNodup m) (hc : keysNodup cur) :
    keysNodup (updatedSizes m cur mult) := by
  unfold updatedSizes keysNodup
  rw [List.map_append, List.nodup_append]
  refine ⟨?_, ?_, ?_⟩
  · rw [keys_map_pair m (fun p => getQty cur p.1 + p.2 * mult)]
    exact hm
  · exact (keysNodup_filter _ cur hc)
  · intro a ha hb
    rw [keys_map_pair m (fun p => getQty cur p.1 + p.2 * mult)] at ha
    have hkey := hasKey_of_mem_keys _ a ha
    obtain ⟨q, hq, hqa⟩ := List.mem_map.mp hb
    have hqa2 : q.1 = a := hqa
    have hqf : hasKey m q.1 = false := by
      have h3 := List.of_mem_filter hq
      simpa using h3
    rw [hqa2, hkey] at hqf
    exact Bool.noConfusion hqf

theorem allNonneg_updatedSizes (m cur : List (String × Int)) (mult : Int)
    (hok : ∀ p ∈ m, 0 ≤ getQty cur p.1 + p.2 * mult)
    (hc : allNonneg cur) : allNonneg (updatedSizes m cur mult) := by
  unfold updatedSizes
  apply allNonneg_append
  · intro p hp
    obtain ⟨q, hq, hqp⟩ := List.mem_map.mp hp
    have := hok q hq
    rw [← hqp]
    simpa using this
  · exact allNonneg_filter _ cur hc

/-! ### aggregateSizes lemmas -/

theorem aggregateSizes_foldl_keysNodup (pairs acc : List (String × Int))
    (hacc : keysNodup acc) :
    keysNodup (pairs.foldl (fun acc p => if p.1 = "" then acc else bumpQty acc p.1 p.2) acc) := by
  induction pairs generalizing acc with
  | nil => simpa using hacc
  | cons p rest ih =>
      by_cases hp : p.1 = ""
      · simpa [hp] using ih acc hacc
      · simpa [hp] using ih _ (keysNodup_setQty acc p.1 _ hacc)

theorem keysNodup_aggregateSizes (pairs : List (String × Int)) :
    keysNodup (aggregateSizes pairs) :=
  aggregateSizes_foldl_keysNodup pairs [] (by simp [keysNodup])

theorem aggregateSizes_foldl_nonneg (pairs acc : List (String × Int))
    (hpairs : ∀ p ∈ pairs, 0 ≤ p.2) (hacc : allNonneg acc) :
    allNonneg (pairs.foldl (fun acc p => if p.1 = "" then acc else bumpQty acc p.1 p.2) acc) := by
  induction pairs generalizing acc with
  | nil => simpa using hacc
  | cons p rest ih =>
      by_cases hp : p.1 = ""
      · simpa [hp] using ih acc (fun q hq => hpairs q (by simp [hq])) hacc
      · have hb : allNonneg (bumpQty acc p.1 p.2) := by
          apply allNonneg_setQty acc p.1 _ hacc
          have := getQty_nonneg acc p.1 hacc
          have := hpairs p (by simp)
          omega
        simpa [hp] using ih _ (fun q hq => hpairs q (by simp [hq])) hb

theorem allNonneg_aggregateSizes (pairs : List (String × Int))
    (h : ∀ p ∈ pairs, 0 ≤ p.2) : allNonneg (aggregateSizes pairs) :=
  aggregateSizes_foldl_nonneg pairs [] h (by intro p hp; simp at hp)

theorem aggregateSizes_foldl_sum (pairs acc : List (String × Int)) :
    sumVals (pairs.foldl (fun acc p => if p.1 = "" then acc else bumpQty acc p.1 p.2) acc)
      = sumVals acc + ((pairs.filter (fun p => p.1 != "")).map (fun p => p.2)).sum := by
  induction pairs generalizing acc with
  | nil => simp
  | cons p rest ih =>
      by_cases hp : p.1 = ""
      · simp [hp, List.filter_cons, ih acc]
      · simp [hp, List.filter_cons, ih (bumpQty acc p.1 p.2), sumVals_bumpQty]
        omega

/-- When no entry has an empty size, aggregation preserves the quantity total. -/
theorem sumVals_aggregateSizes_of_nonempty (pairs : List (String × Int))
    (h : ∀ p ∈ pairs, p.1 ≠ "") :
    sumVals (aggregateSizes pairs) = (pairs.map (fun p => p.2)).sum := by
  unfold aggregateSizes
  rw [aggregateSizes_foldl_sum]
  have : pairs.filter (fun p => p.1 != "") = pairs := by
    rw [List.filter_eq_self]
    intro p hp
    simpa using h p hp
  simp [this, sumVals]

/-! ### Sale debit/credit loop lemmas -/

theorem creditSizes_sum (totals cur : List (String × Int)) :
    sumVals (creditSizes cur totals) = sumVals cur + sumVals totals := by
  induction totals generalizing cur with
  | nil => simp [creditSizes, sumVals]
  | cons p rest ih =>
      obtain ⟨s, q⟩ := p
      have hstep : creditSizes cur ((s, q) :: rest) = creditSizes (bumpQty cur s q) rest := rfl
      rw [hstep, ih, sumVals_bumpQty]
      simp [sumVals]
      omega

theorem debitSizes_sum (totals cur res : List (String × Int))
    (h : debitSizes cur totals = some res) :
    sumVals res = sumVals cur - sumVals totals := by
  induction totals generalizing cur with
  | nil =>
      simp [debitSizes] at h
      simp [← h, sumVals]
  | cons p rest ih =>
      obtain ⟨s, q⟩ := p
      simp [debitSizes] at h
      rcases h with ⟨hlt, h⟩
      have := ih _ h
      rw [this, sumVals_setQty]
      simp [sumVals]
      omega

theorem creditSizes_nonneg (totals cur : List (String × Int))
    (hc : allNonneg cur) (ht : ∀ p ∈ totals, 0 ≤ p.2) :
    allNonneg (creditSizes cur totals) := by
  induction totals generalizing cur with
  | nil => simpa [creditSizes] using hc
  | cons p rest ih =>
      obtain ⟨s, q⟩ := p
      simp [creditSizes]
      apply ih
      · apply allNonneg_setQty cur s _ hc
        have := getQty_nonneg cur s hc
        have := ht (s, q) (by simp)
        simp at this
        omega
      · exact fun r hr => ht r (by simp [hr])

theorem debitSizes_nonneg (totals cur res : List (String × Int))
    (h : debitSizes cur totals = some res) (hc : allNonneg cur) :
    allNonneg res := by
  induction totals generalizing cur with
  | nil =>
      simp [debitSizes] at h
      simpa [← h] using hc
  | cons p rest ih =>
      obtain ⟨s, q⟩ := p
      simp [debitSizes] at h
      rcases h with ⟨hlt, h⟩
      apply ih _ h
      apply allNonneg_setQty cur s _ hc
      omega

theorem creditSizes_keysNodup (totals cur : List (String × Int))
    (hc : keysNodup cur) : keysNodup (creditSizes cur totals) := by
  induction totals generalizing cur with
  | nil => simpa [creditSizes] using hc
  | cons p rest ih =>
      obtain ⟨s, q⟩ := p
      simp [creditSizes]
      exact ih _ (keysNodup_setQty cur s _ hc)

theorem debitSizes_keysNodup (totals cur res : List (String × Int))
    (h : debitSizes cur totals = some res) (hc : keysNodup cur) :
    keysNodup res := by
  induction totals generalizing cur with
  | nil =>
      simp [debitSizes] at h
      simpa [← h] using hc
  | cons p rest ih =>
      obtain ⟨s, q⟩ := p
      simp [debitSizes] at h
      rcases h with ⟨hlt, h⟩
      exact ih _ h (keysNodup_setQty cur s _ hc)

/-! ### adjustInventory characterization -/

theorem sumVals_nonneg (l : List (String × Int)) (h : allNonneg l) : 0 ≤ sumVals l := by
  induction l with
  | nil => simp [sumVals]
  | cons p rest ih =>
      have h1 := h p (by simp)
      have h2 := ih (fun q hq => h q (by simp [hq]))
      simp [sumVals] at h2 ⊢
      omega

theorem mem_of_lookupDoc {α : Type} (l : List (String × α)) (k : String) (v : α)
    (h : lookupDoc l k = some v) : (k, v) ∈ l := by
  induction l with
  | nil => simp [lookupDoc] at h
  | cons p rest ih =>
      by_cases hp : p.1 = k
      · simp [lookupDoc, hp] at h
        have hpv : p = (k, v) := by
          obtain ⟨a, b⟩ := p
          simp_all
        simp [hpv]
      · simp [lookupDoc, hp] at h
        exact List.mem_cons_of_mem _ (ih h)

theorem getDesignSizeMap_ok (db : DB) (d : String) (m : List (String × Int))
    (h : getDesignSizeMap db d = .ok m) :
    ∃ dd, lookupDoc db.designs d = some dd ∧ m = aggregateSizes dd.sizeDistribution := by
  unfold getDesignSizeMap at h
  split at h
  · exact absurd h (by simp)
  · rename_i dd hdd
    refine ⟨dd, hdd, ?_⟩
    have := Except.ok.inj h
    exact this.symm

/-- A failing `_adjust_inventory` call writes nothing: the store carried by the
error is the input store. -/
theorem adjustInventory_error_state (db : DB) (d : String) (mult : Int) (now : Nat)
    (e : Err) (db2 : DB) (h : adjustInventory db d mult now = .error (e, db2)) :
    db2 = db := by
  simp only [adjustInventory] at h
  repeat' split at h
  all_goals first
    | (simp only [Except.error.injEq, Prod.mk.injEq] at h; exact h.2.symm)
    | (simp at h)

/-- A successful `_adjust_inventory` call touches only the inventory collection. -/
theorem adjustInventory_ok_frame (db : DB) (d : String) (mult : Int) (now : Nat)
    (db2 : DB) (h : adjustInventory db d mult now = .ok db2) :
    db2.designs = db.designs ∧ db2.tracking = db.tracking ∧ db2.sales = db.sales := by
  simp only [adjustInventory] at h
  repeat' split at h
  all_goals first
    | (obtain rfl := Except.ok.inj h; simp)
    | (simp at h; done)

/-- A successful `_adjust_inventory` call preserves the total = size-sum
invariant on every inventory record. -/
theorem adjustInventory_ok_consistent (db : DB) (d : String) (mult : Int) (now : Nat)
    (db2 : DB) (h : adjustInventory db d mult now = .ok db2)
    (hwf : invWF db) (hcons : invConsistent db) : invConsistent db2 := by
  unfold invWF at hwf
  unfold invConsistent at hcons ⊢
  simp only [adjustInventory] at h
  split at h
  · obtain rfl := Except.ok.inj h
    exact hcons
  · split at h
    · simp at h
    · rename_i sizeMap hsm
      split at h
      · obtain rfl := Except.ok.inj h
        exact hcons
      · rename_i hne
        split at h
        · rename_i inv hinv
          split at h
          · simp at h
          · rename_i hany
            split at h
            · simp at h
            · obtain rfl := Except.ok.inj h
              intro pr hpr
              refine forall_mem_setDoc
                (fun pr => sumVals pr.2.sizes = pr.2.totalAvailable)
                db.inventory d _ hcons ?_ pr hpr
              obtain ⟨dd, hdd, rfl⟩ := getDesignSizeMap_ok db d sizeMap hsm
              have hm := keysNodup_aggregateSizes dd.sizeDistribution
              have hcur : keysNodup inv.sizes := hwf (d, inv) (mem_of_lookupDoc _ _ _ hinv)
              have hupd := sumVals_updatedSizes _ inv.sizes mult hm hcur
              have hold := hcons (d, inv) (mem_of_lookupDoc _ _ _ hinv)
              simp only [] at hold ⊢
              rw [hupd, hold]
        · rename_i hinv
          split at h
          · simp at h
          · obtain rfl := Except.ok.inj h
            intro pr hpr
            exact forall_mem_setDoc
              (fun pr => sumVals pr.2.sizes = pr.2.totalAvailable)
              db.inventory d _ hcons (by simp) pr hpr

/-- A successful `_adjust_inventory` call keeps every touched quantity and
total non-negative, provided the design deltas are non-negative and the store
was non-negative before. -/
theorem adjustInventory_ok_nonneg (db : DB) (d : String) (mult : Int) (now : Nat)
    (db2 : DB) (h : adjustInventory db d mult now = .ok db2)
    (hdes : designsNonneg db) (hnn : invNonneg db) : invNonneg db2 := by
  unfold designsNonneg at hdes
  unfold invNonneg at hnn ⊢
  simp only [adjustInventory] at h
  split at h
  · obtain rfl := Except.ok.inj h
    exact hnn
  · split at h
    · simp at h
    · rename_i sizeMap hsm
      split at h
      · obtain rfl := Except.ok.inj h
        exact hnn
      · rename_i hne
        split at h
        · rename_i inv hinv
          split at h
          · simp at h
          · rename_i hany
            split at h
            · simp at h
            · rename_i hlt
              obtain rfl := Except.ok.inj h
              intro pr hpr
              refine forall_mem_setDoc
                (fun pr => allNonneg pr.2.sizes ∧ 0 ≤ pr.2.totalAvailable)
                db.inventory d _ hnn ?_ pr hpr
              have hrec := hnn (d, inv) (mem_of_lookupDoc _ _ _ hinv)
              constructor
              · apply allNonneg_updatedSizes
                · intro p hp
                  simp at hany
                  have := hany p.1 p.2 (by simpa using hp)
                  omega
                · exact hrec.1
              · simp only []
                omega
        · rename_i hinv
          split at h
          · simp at h
          · obtain rfl := Except.ok.inj h
            obtain ⟨dd, hdd, rfl⟩ := getDesignSizeMap_ok db d sizeMap hsm
            have hagg : allNonneg (aggregateSizes dd.sizeDistribution) :=
              allNonneg_aggregateSizes dd.sizeDistribution
                (hdes (d, dd) (mem_of_lookupDoc _ _ _ hdd))
            intro pr hpr
            refine forall_mem_setDoc
              (fun pr => allNonneg pr.2.sizes ∧ 0 ≤ pr.2.totalAvailable)
              db.inventory d _ hnn ?_ pr hpr
            exact ⟨hagg, sumVals_nonneg _ hagg⟩

/-! ### Failure leaves the store untouched (per operation) -/

/-- A failing sale CREATE writes nothing. -/
theorem saleCreate_error_state (db : DB) (p : SaleCreatePayload) (now : Nat)
    (newId : String) (e : Err) (db2 : DB)
    (h : saleCreate db p now newId = .error (e, db2)) : db2 = db := by
  simp only [saleCreate] at h
  repeat' split at h
  all_goals first
    | (simp only [Except.error.injEq, Prod.mk.injEq] at h; exact h.2.symm)
    | (simp at h; done)

/-- A failing sale UPDATE writes nothing. -/
theorem saleUpdate_error_state (db : DB) (saleId : String) (p : SaleUpdatePayload)
    (now : Nat) (e : Err) (db2 : DB)
    (h : saleUpdate db saleId p now = .error (e, db2)) : db2 = db := by
  simp only [saleUpdate] at h
  repeat' split at h
  all_goals first
    | (simp only [Except.error.injEq, Prod.mk.injEq] at h; exact h.2.symm)
    | (simp at h; done)

/-- A failing sale DELETE writes nothing. -/
theorem saleDelete_error_state (db : DB) (saleId : String) (lvl : AccessLevel)
    (now : Nat) (e : Err) (db2 : DB)
    (h : saleDelete db saleId lvl now = .error (e, db2)) : db2 = db := by
  simp only [saleDelete] at h
  repeat' split at h
  all_goals first
    | (simp only [Except.error.injEq, Prod.mk.injEq] at h; exact h.2.symm)
    | (simp at h; done)

/-- A failing revert writes nothing: every guard, and the inventory debit
itself, raises before any document write. -/
theorem revertProduction_error_state (db : DB) (tid : String) (lvl : AccessLevel)
    (now : Nat) (e : Err) (db2 : DB)
    (h : revertProduction db tid lvl now = .error (e, db2)) : db2 = db := by
  simp only [revertProduction] at h
  split at h
  · simp only [Except.error.injEq, Prod.mk.injEq] at h
    exact h.2.symm
  · split at h
    · simp only [Except.error.injEq, Prod.mk.injEq] at h
      exact h.2.symm
    · split at h
      · simp only [Except.error.injEq, Prod.mk.injEq] at h
        exact h.2.symm
      · rename_i t ht
        split at h
        · simp only [Except.error.injEq, Prod.mk.injEq] at h
          exact h.2.symm
        · rename_i t2 hstep
          split at h
          · rename_i e3 hadj
            simp only [Except.error.injEq] at h
            rw [h] at hadj
            split at hadj
            · exact adjustInventory_error_state db _ (-1) now e db2 hadj
            · simp at hadj
          · simp at h

/-- A failing COMPLETE_IRONING leaves the inventory, sales and designs
collections untouched (the tracking record may however already have been
updated: see the C1 counterexample). -/
theorem completeIroning_error_frame (db : DB) (tid : String) (now : Nat)
    (e : Err) (db2 : DB) (h : completeIroning db tid now = .error (e, db2)) :
    db2.inventory = db.inventory ∧ db2.sales = db.sales ∧ db2.designs = db.designs := by
  simp only [completeIroning] at h
  split at h
  · simp only [Except.error.injEq, Prod.mk.injEq] at h
    rw [← h.2]
    exact ⟨rfl, rfl, rfl⟩
  · split at h
    · simp only [Except.error.injEq, Prod.mk.injEq] at h
      rw [← h.2]
      exact ⟨rfl, rfl, rfl⟩
    · rename_i t ht
      split at h
      · simp only [Except.error.injEq, Prod.mk.injEq] at h
        rw [← h.2]
        exact ⟨rfl, rfl, rfl⟩
      · rename_i t2 hstep
        split at h
        · simp at h
        · have := adjustInventory_error_state _ _ 1 now e db2 h
          rw [this]
          exact ⟨rfl, rfl, rfl⟩

/-! ### Success preserves the total = size-sum invariant (per operation) -/

theorem saleCreate_ok_consistent (db : DB) (p : SaleCreatePayload) (now : Nat)
    (newId : String) (db2 : DB) (h : saleCreate db p now newId = .ok db2)
    (hsz : ∀ it ∈ p.items, it.size ≠ "")
    (hcons : invConsistent db) : invConsistent db2 := by
  unfold invConsistent at hcons ⊢
  simp only [saleCreate] at h
  split at h
  · simp at h
  · split at h
    · simp at h
    · rename_i inv hinv
      split at h
      · simp at h
      · rename_i newSizes hdeb
        split at h
        · simp at h
        · split at h
          · simp at h
          · split at h
            · simp at h
            · split at h
              · simp at h
              · rename_i hrem
                obtain rfl := Except.ok.inj h
                intro pr hpr
                refine forall_mem_setDoc
                  (fun pr => sumVals pr.2.sizes = pr.2.totalAvailable)
                  _ p.designId _ hcons ?_ pr hpr
                have hsum := debitSizes_sum _ _ _ hdeb
                have hold := hcons (p.designId, inv) (mem_of_lookupDoc _ _ _ hinv)
                have hagg : sumVals (aggregateSizes (payloadPairs p.items))
                    = ((payloadPairs p.items).map (fun q => q.2)).sum := by
                  apply sumVals_aggregateSizes_of_nonempty
                  intro q hq
                  simp [payloadPairs] at hq
                  obtain ⟨it, hit, rfl⟩ := hq
                  exact hsz it hit
                have hqty : ((payloadPairs p.items).map (fun q => q.2)).sum
                    = (p.items.map (fun it => it.quantity)).sum := by
                  unfold payloadPairs
                  rw [List.map_map]
                  rfl
                have hbuilt : (buildLineItems p.items p.sellingPricePerPiece).2.1
                    = (p.items.map (fun it => it.quantity)).sum := rfl
                simp only [] at hold ⊢
                rw [hsum, hold, hagg, hqty, hbuilt]

theorem saleUpdate_ok_consistent (db : DB) (saleId : String) (p : SaleUpdatePayload)
    (now : Nat) (db2 : DB) (h : saleUpdate db saleId p now = .ok db2)
    (hsz : ∀ its, p.items = some its → ∀ it ∈ its, it.size ≠ "")
    (hcons : invConsistent db) : invConsistent db2 := by
  unfold invConsistent at hcons ⊢
  simp only [saleUpdate] at h
  split at h
  · simp at h
  · split at h
    · simp at h
    · rename_i sale hsale
      split at h
      · simp at h
      · split at h
        · simp at h
        · split at h
          · simp at h
          · rename_i inv hinv
            split at h
            · simp at h
            · rename_i unitPrice hprice
              split at h
              · -- p.items = none : only the sale document changes
                split at h
                · simp at h
                · obtain rfl := Except.ok.inj h
                  exact hcons
              · rename_i newItems hitems
                split at h
                · simp at h
                · rename_i finalSizes hdeb
                  split at h
                  · simp at h
                  · split at h
                    · simp at h
                    · obtain rfl := Except.ok.inj h
                      intro pr hpr
                      refine forall_mem_setDoc
                        (fun pr => sumVals pr.2.sizes = pr.2.totalAvailable)
                        _ sale.designId _ hcons ?_ pr hpr
                      have hsum := debitSizes_sum _ _ _ hdeb
                      have hcred := creditSizes_sum
                        (aggregateSizes (storedPairs sale.items)) inv.sizes
                      have hold := hcons (sale.designId, inv)
                        (mem_of_lookupDoc _ _ _ hinv)
                      have hagg : sumVals (aggregateSizes (payloadPairs newItems))
                          = ((payloadPairs newItems).map (fun q => q.2)).sum := by
                        apply sumVals_aggregateSizes_of_nonempty
                        intro q hq
                        simp [payloadPairs] at hq
                        obtain ⟨it, hit, rfl⟩ := hq
                        exact hsz newItems hitems it hit
                      have hqty : ((payloadPairs newItems).map (fun q => q.2)).sum
                          = (newItems.map (fun it => it.quantity)).sum := by
                        unfold payloadPairs
                        rw [List.map_map]
                        rfl
                      have hbuilt : (buildLineItems newItems unitPrice).2.1
                          = (newItems.map (fun it => it.quantity)).sum := rfl
                      simp only [] at hold ⊢
                      rw [hsum, hcred, hold, hagg, hqty, hbuilt]

theorem saleDelete_ok_consistent (db : DB) (saleId : String) (lvl : AccessLevel)
    (now : Nat) (db2 : DB) (h : saleDelete db saleId lvl now = .ok db2)
    (hcons : invConsistent db) : invConsistent db2 := by
  unfold invConsistent at hcons ⊢
  simp only [saleDelete] at h
  split at h
  · simp at h
  · rename_i sale hsale
    split at h
    · simp at h
    · split at h
      · obtain rfl := Except.ok.inj h
        exact hcons
      · split at h
        · simp at h
        · rename_i inv hinv
          obtain rfl := Except.ok.inj h
          intro pr hpr
          refine forall_mem_setDoc
            (fun pr => sumVals pr.2.sizes = pr.2.totalAvailable)
            _ sale.designId _ hcons ?_ pr hpr
          have hcred := creditSizes_sum
            (aggregateSizes (storedPairs sale.items)) inv.sizes
          have hold := hcons (sale.designId, inv) (mem_of_lookupDoc _ _ _ hinv)
          simp only [] at hold ⊢
          rw [hcred, hold]

theorem completeIroning_ok_consistent (db : DB) (tid : String) (now : Nat)
    (db2 : DB) (h : completeIroning db tid now = .ok db2)
    (hwf : invWF db) (hcons : invConsistent db) : invConsistent db2 := by
  simp only [completeIroning] at h
  split at h
  · simp at h
  · split at h
    · simp at h
    · rename_i t ht
      split at h
      · simp at h
      · rename_i t2 hstep
        split at h
        · obtain rfl := Except.ok.inj h
          exact hcons
        · exact adjustInventory_ok_consistent _ _ 1 now db2 h hwf hcons

theorem revertProduction_ok_consistent (db : DB) (tid : String) (lvl : AccessLevel)
    (now : Nat) (db2 : DB) (h : revertProduction db tid lvl now = .ok db2)
    (hwf : invWF db) (hcons : invConsistent db) : invConsistent db2 := by
  simp only [revertProduction] at h
  split at h
  · simp at h
  · split at h
    · simp at h
    · split at h
      · simp at h
      · rename_i t ht
        split at h
        · simp at h
        · rename_i t2 hstep
          split at h
          · simp at h
          · rename_i db1 hadj
            obtain rfl := Except.ok.inj h
            have hdb1 : invConsistent db1 := by
              split at hadj
              · exact adjustInventory_ok_consistent _ _ (-1) now db1 hadj hwf hcons
              · obtain rfl := Except.ok.inj hadj
                exact hcons
            exact hdb1

/-! ### Success preserves non-negativity (per operation) -/

theorem saleCreate_ok_nonneg (db : DB) (p : SaleCreatePayload) (now : Nat)
    (newId : String) (db2 : DB) (h : saleCreate db p now newId = .ok db2)
    (hnn : invNonneg db) : invNonneg db2 := by
  unfold invNonneg at hnn ⊢
  simp only [saleCreate] at h
  split at h
  · simp at h
  · split at h
    · simp at h
    · rename_i inv hinv
      split at h
      · simp at h
      · rename_i newSizes hdeb
        split at h
        · simp at h
        · split at h
          · simp at h
          · split at h
            · simp at h
            · split at h
              · simp at h
              · rename_i hrem
                obtain rfl := Except.ok.inj h
                intro pr hpr
                refine forall_mem_setDoc
                  (fun pr => allNonneg pr.2.sizes ∧ 0 ≤ pr.2.totalAvailable)
                  _ p.designId _ hnn ?_ pr hpr
                have hrec := hnn (p.designId, inv) (mem_of_lookupDoc _ _ _ hinv)
                constructor
                · exact debitSizes_nonneg _ _ _ hdeb hrec.1
                · simp only []
                  have := hrec.2
                  omega

theorem saleUpdate_ok_nonneg (db : DB) (saleId : String) (p : SaleUpdatePayload)
    (now : Nat) (db2 : DB) (h : saleUpdate db saleId p now = .ok db2)
    (hsales : salesNonneg db) (hnn : invNonneg db) : invNonneg db2 := by
  unfold salesNonneg at hsales
  unfold invNonneg at hnn ⊢
  simp only [saleUpdate] at h
  split at h
  · simp at h
  · split at h
    · simp at h
    · rename_i sale hsale
      split at h
      · simp at h
      · split at h
        · simp at h
        · split at h
          · simp at h
          · rename_i inv hinv
            split at h
            · simp at h
            · rename_i unitPrice hprice
              split at h
              · split at h
                · simp at h
                · obtain rfl := Except.ok.inj h
                  exact hnn
              · rename_i newItems hitems
                split at h
                · simp at h
                · rename_i finalSizes hdeb
                  split at h
                  · simp at h
                  · split at h
                    · simp at h
                    · rename_i hrem
                      obtain rfl := Except.ok.inj h
                      intro pr hpr
                      refine forall_mem_setDoc
                        (fun pr => allNonneg pr.2.sizes ∧ 0 ≤ pr.2.totalAvailable)
                        _ sale.designId _ hnn ?_ pr hpr
                      have hrec := hnn (sale.designId, inv)
                        (mem_of_lookupDoc _ _ _ hinv)
                      have hitemsnn : ∀ q ∈ storedPairs sale.items, 0 ≤ q.2 := by
                        intro q hq
                        simp [storedPairs] at hq
                        obtain ⟨it, hit, rfl⟩ := hq
                        exact hsales (saleId, sale) (mem_of_lookupDoc _ _ _ hsale) it hit
                      have hold := allNonneg_aggregateSizes _ hitemsnn
                      have hcred := creditSizes_nonneg
                        (aggregateSizes (storedPairs sale.items)) inv.sizes hrec.1 hold
                      constructor
                      · exact debitSizes_nonneg _ _ _ hdeb hcred
                      · simp only []
                        omega

theorem saleDelete_ok_nonneg (db : DB) (saleId : String) (lvl : AccessLevel)
    (now : Nat) (db2 : DB) (h : saleDelete db saleId lvl now = .ok db2)
    (hsales : salesNonneg db) (hnn : invNonneg db) : invNonneg db2 := by
  unfold salesNonneg at hsales
  unfold invNonneg at hnn ⊢
  simp only [saleDelete] at h
  split at h
  · simp at h
  · rename_i sale hsale
    split at h
    · simp at h
    · split at h
      · obtain rfl := Except.ok.inj h
        exact hnn
      · split at h
        · simp at h
        · rename_i inv hinv
          obtain rfl := Except.ok.inj h
          intro pr hpr
          refine forall_mem_setDoc
            (fun pr => allNonneg pr.2.sizes ∧ 0 ≤ pr.2.totalAvailable)
            _ sale.designId _ hnn ?_ pr hpr
          have hrec := hnn (sale.designId, inv) (mem_of_lookupDoc _ _ _ hinv)
          have hitemsnn : ∀ q ∈ storedPairs sale.items, 0 ≤ q.2 := by
            intro q hq
            simp [storedPairs] at hq
            obtain ⟨it, hit, rfl⟩ := hq
            exact hsales (saleId, sale) (mem_of_lookupDoc _ _ _ hsale) it hit
          have hagg := allNonneg_aggregateSizes _ hitemsnn
          constructor
          · exact creditSizes_nonneg _ _ hrec.1 hagg
          · simp only []
            have h1 : 0 ≤ inv.totalAvailable := hrec.2
            have h2 := sumVals_nonneg _ hagg
            omega

theorem completeIroning_ok_nonneg (db : DB) (tid : String) (now : Nat)
    (db2 : DB) (h : completeIroning db tid now = .ok db2)
    (hdes : designsNonneg db) (hnn : invNonneg db) : invNonneg db2 := by
  simp only [completeIroning] at h
  split at h
  · simp at h
  · split at h
    · simp at h
    · rename_i t ht
      split at h
      · simp at h
      · rename_i t2 hstep
        split at h
        · obtain rfl := Except.ok.inj h
          exact hnn
        · exact adjustInventory_ok_nonneg _ _ 1 now db2 h hdes hnn

theorem revertProduction_ok_nonneg (db : DB) (tid : String) (lvl : AccessLevel)
    (now : Nat) (db2 : DB) (h : revertProduction db tid lvl now = .ok db2)
    (hdes : designsNonneg db) (hnn : invNonneg db) : invNonneg db2 := by
  simp only [revertProduction] at h
  split at h
  · simp at h
  · split at h
    · simp at h
    · split at h
      · simp at h
      · rename_i t ht
        split at h
        · simp at h
        · rename_i t2 hstep
          split at h
          · simp at h
          · rename_i db1 hadj
            obtain rfl := Except.ok.inj h
            have hdb1 : invNonneg db1 := by
              split at hadj
              · exact adjustInventory_ok_nonneg _ _ (-1) now db1 hadj hdes hnn
              · obtain rfl := Except.ok.inj hadj
                exact hnn
            exact hdb1

/-! ### Claim C1 -/

/-- C1 counterexample: COMPLETE_IRONING on a record at IRONING/IN_PROGRESS whose
design document does not exist fails with NotFoundError, yet the tracking record
has already been mutated (marked completed) — the failure is NOT detected before
a document write, contrary to the claim. -/
theorem c1_counterexample :
    runCoord c1db (CoordOp.completeIroningOp "t1") 5 = .error (Err.notFound, c1dbAfter) ∧
      c1dbAfter.tracking ≠ c1db.tracking ∧
      lookupDoc c1db.tracking "t1" = some c1track ∧
      c1track.stage = Stage.ironing ∧ c1track.status = Status.inProgress :=
  ⟨rfl, by decide, rfl, rfl, rfl⟩

/-- C1 (amended): whenever a coordinated operation fails with PreconditionError
or NotFoundError, the inventory, sales and designs collections are unmutated;
for every operation except COMPLETE_IRONING the whole store is unmutated.  (For
COMPLETE_IRONING the tracking record is written before the inventory credit, so
a failure arising during the credit leaves it already marked COMPLETED.) -/
theorem c1_amended_failure_writes_nothing (db : DB) (op : CoordOp) (now : Nat)
    (e : Err) (db2 : DB) (h : runCoord db op now = .error (e, db2))
    (he : e = Err.precondition ∨ e = Err.notFound) :
    db2.inventory = db.inventory ∧ db2.sales = db.sales ∧ db2.designs = db.designs ∧
      (isIroningOp op = false → db2 = db) := by
  cases op with
  | saleCreateOp p newId =>
      have hs := saleCreate_error_state db p now newId e db2 h
      subst hs
      exact ⟨rfl, rfl, rfl, fun _ => rfl⟩
  | saleUpdateOp saleId p =>
      have hs := saleUpdate_error_state db saleId p now e db2 h
      subst hs
      exact ⟨rfl, rfl, rfl, fun _ => rfl⟩
  | saleDeleteOp saleId lvl =>
      have hs := saleDelete_error_state db saleId lvl now e db2 h
      subst hs
      exact ⟨rfl, rfl, rfl, fun _ => rfl⟩
  | completeIroningOp tid =>
      have hs := completeIroning_error_frame db tid now e db2 h
      refine ⟨hs.1, hs.2.1, hs.2.2, ?_⟩
      intro hfalse
      simp [isIroningOp] at hfalse
  | revertOp tid lvl =>
      have hs := revertProduction_error_state db tid lvl now e db2 h
      subst hs
      exact ⟨rfl, rfl, rfl, fun _ => rfl⟩

/-- Witness for C1 (amended): a concrete failing sale DELETE leaves the concrete
empty store untouched. -/
theorem c1_amended_witness :
    runCoord dbEmpty (CoordOp.saleDeleteOp "x" AccessLevel.level1) 0
        = .error (Err.notFound, dbEmpty) ∧
      (dbEmpty.inventory = dbEmpty.inventory ∧ dbEmpty.sales = dbEmpty.sales ∧
        dbEmpty.designs = dbEmpty.designs ∧
        (isIroningOp (CoordOp.saleDeleteOp "x" AccessLevel.level1) = false →
          dbEmpty = dbEmpty)) :=
  ⟨rfl, c1_amended_failure_writes_nothing dbEmpty
    (CoordOp.saleDeleteOp "x" AccessLevel.level1) 0 Err.notFound dbEmpty rfl
    (Or.inr rfl)⟩

/-! ### Claim C2 -/

/-- C2 counterexample: a pydantic-valid sale CREATE whose payload contains an
item with an empty size succeeds, debiting `total_available` by the full item
count but the per-size map only by the nonempty-size items, so the stored
record violates total = sum(sizes) although it satisfied it before. -/
theorem c2_counterexample :
    invConsistent c2db ∧ createPayloadValid c2payload = true ∧
      runCoord c2db (CoordOp.saleCreateOp c2payload "s1") 7 = .ok c2dbAfter ∧
      ¬ invConsistent c2dbAfter :=
  ⟨by decide, by decide,
    by
      norm_num [runCoord, saleCreate, createPayloadValid, c2db, c2payload, c2dbAfter,
        c2saleAfter, lookupDoc, aggregateSizes, payloadPairs, bumpQty, setQty, getQty,
        hasKey, debitSizes, buildLineItems, tol, sumVals, setDoc]
      intro hlen
      exact absurd hlen (by decide),
    by decide⟩

/-- C2 (amended): after every successful coordinated mutation, every inventory
record satisfies total_available = sum(sizes), provided every record satisfied
it before (with well-formed size dicts) and — the condition the counterexample
forces — every item of a sale CREATE/UPDATE payload carries a nonempty size. -/
theorem c2_amended_sum_invariant (db : DB) (op : CoordOp) (now : Nat) (db2 : DB)
    (h : runCoord db op now = .ok db2) (hsz : itemsNonemptySizes op)
    (hwf : invWF db) (hcons : invConsistent db) : invConsistent db2 := by
  cases op with
  | saleCreateOp p newId => exact saleCreate_ok_consistent db p now newId db2 h hsz hcons
  | saleUpdateOp saleId p => exact saleUpdate_ok_consistent db saleId p now db2 h hsz hcons
  | saleDeleteOp saleId lvl => exact saleDelete_ok_consistent db saleId lvl now db2 h hcons
  | completeIroningOp tid => exact completeIroning_ok_consistent db tid now db2 h hwf hcons
  | revertOp tid lvl => exact revertProduction_ok_consistent db tid lvl now db2 h hwf hcons

/-- Witness for C2 (amended): the Scenario-A ironing completion creates the
S:2/M:3 record with total 5, and the invariant holds. -/
theorem c2_amended_witness :
    runCoord wprodDb (CoordOp.completeIroningOp "t1") 9 = .ok wprodAfter ∧
      invConsistent wprodAfter :=
  ⟨rfl,
    c2_amended_sum_invariant wprodDb (CoordOp.completeIroningOp "t1") 9 wprodAfter
      rfl trivial (by decide) (by decide)⟩

/-! ### Claim C3 -/

/-- C3 counterexample: a production credit (`_adjust_inventory` with
multiplier +1) for a design whose size_distribution holds a negative quantity,
on a design with no existing inventory record, is NOT rejected: it creates the
record storing a negative per-size quantity and a negative total. -/
theorem c3_counterexample :
    adjustInventory c3db "d" 1 3 = .ok c3dbAfter ∧
      lookupDoc c3dbAfter.inventory "d" = some ⟨"d", [("S", -5)], -5, 3, 3⟩ ∧
      getQty [(("S" : String), (-5 : Int))] "S" < 0 :=
  ⟨rfl, by decide, by decide⟩

/-- C3 (amended): every failing coordinated ledger adjustment leaves the whole
inventory collection exactly as it was (all-or-nothing), and every successful
one preserves non-negativity of all stored quantities and totals — provided
(as the counterexample forces) every design delta quantity is non-negative,
and stored sale item quantities are non-negative. -/
theorem c3_amended_reject_nonneg (db : DB) (op : CoordOp) (now : Nat) :
    (∀ e db2, runCoord db op now = .error (e, db2) → db2.inventory = db.inventory) ∧
    (∀ db2, runCoord db op now = .ok db2 → designsNonneg db → salesNonneg db →
      invNonneg db → invNonneg db2) := by
  constructor
  · intro e db2 h
    cases op with
    | saleCreateOp p newId =>
        have hs := saleCreate_error_state db p now newId e db2 h
        rw [hs]
    | saleUpdateOp saleId p =>
        have hs := saleUpdate_error_state db saleId p now e db2 h
        rw [hs]
    | saleDeleteOp saleId lvl =>
        have hs := saleDelete_error_state db saleId lvl now e db2 h
        rw [hs]
    | completeIroningOp tid =>
        exact (completeIroning_error_frame db tid now e db2 h).1
    | revertOp tid lvl =>
        have hs := revertProduction_error_state db tid lvl now e db2 h
        rw [hs]
  · intro db2 h hdes hsales hnn
    cases op with
    | saleCreateOp p newId => exact saleCreate_ok_nonneg db p now newId db2 h hnn
    | saleUpdateOp saleId p => exact saleUpdate_ok_nonneg db saleId p now db2 h hsales hnn
    | saleDeleteOp saleId lvl => exact saleDelete_ok_nonneg db saleId lvl now db2 h hsales hnn
    | completeIroningOp tid => exact completeIroning_ok_nonneg db tid now db2 h hdes hnn
    | revertOp tid lvl => exact revertProduction_ok_nonneg db tid lvl now db2 h hdes hnn

/-- Witness for C3 (amended): the Scenario-A ironing credit yields a store with
all quantities non-negative. -/
theorem c3_amended_witness :
    runCoord wprodDb (CoordOp.completeIroningOp "t1") 9 = .ok wprodAfter ∧
      invNonneg wprodAfter :=
  ⟨rfl,
    (c3_amended_reject_nonneg wprodDb (CoordOp.completeIroningOp "t1") 9).2
      wprodAfter rfl (by decide) (by decide) (by decide)⟩

/-! ### Claim C6 -/

/-- C6 counterexample: for the delta derived from a design with an empty
size_distribution, a debit on a non-existent inventory record does NOT fail —
it returns successfully having created nothing (and the credit creates nothing
either), contrary to the claim that the debit errors for every delta. -/
theorem c6_counterexample :
    lookupDoc c6db.inventory "d" = none ∧
      adjustInventory c6db "d" (-1) 0 = .ok c6db ∧
      adjustInventory c6db "d" 1 0 = .ok c6db :=
  ⟨rfl, rfl, rfl⟩

/-- C6 (amended): on a missing inventory record, a debit errors (writing
nothing) and a credit creates the record with exactly the delta's quantities —
for every NONEMPTY per-size delta; for the empty delta (e.g. a design with an
empty size_distribution) both calls are silent no-ops. -/
theorem c6_amended_missing_record (db : DB) (d : String) (m : List (String × Int))
    (now : Nat) (hm : getDesignSizeMap db d = .ok m)
    (hnone : lookupDoc db.inventory d = none) :
    (m ≠ [] →
      adjustInventory db d (-1) now = .error (.precondition, db) ∧
      adjustInventory db d 1 now =
        .ok { db with inventory := setDoc db.inventory d ⟨d, m, sumVals m, now, now⟩ }) ∧
    (m = [] →
      adjustInventory db d (-1) now = .ok db ∧ adjustInventory db d 1 now = .ok db) := by
  constructor
  · intro hne
    constructor
    · simp only [adjustInventory, hm, hnone]
      rw [if_neg (by norm_num), if_neg hne, if_pos (by norm_num)]
    · simp only [adjustInventory, hm, hnone]
      rw [if_neg (by norm_num), if_neg hne, if_neg (by norm_num)]
  · intro he
    subst he
    constructor
    · simp only [adjustInventory, hm, hnone]
      simp
    · simp only [adjustInventory, hm, hnone]
      simp

/-- Witness for C6 (amended) at a concrete nonempty delta: the debit errors
with nothing written and the credit creates the record. -/
theorem c6_amended_witness :
    adjustInventory c6wdb "d" (-1) 0 = .error (.precondition, c6wdb) ∧
      adjustInventory c6wdb "d" 1 0 =
        .ok { c6wdb with
          inventory := setDoc c6wdb.inventory "d" ⟨"d", [("S", 2)], sumVals [("S", 2)], 0, 0⟩ } :=
  (c6_amended_missing_record c6wdb "d" [("S", 2)] 0 rfl rfl).1 (by decide)

/-! ### Claim C7 -/

/-- C7: START_SEWING fails with PreconditionError — leaving the store untouched
— whenever the cutting stage's sub-status is not COMPLETED, and it succeeds
exactly when cutting is COMPLETED, the sewing sub-status is PENDING, and the
overview state is CUTTING/COMPLETED, SEWING/PENDING or SEWING/COMPLETED. -/
theorem c7_start_sewing_guard (db : DB) (tid : String) (t : Tracking) (now : Nat)
    (htid : tid ≠ "") (ht : lookupDoc db.tracking tid = some t) :
    (t.stages.cutting.status ≠ Status.completed →
      startSewing db tid now = .error (.precondition, db)) ∧
    ((∃ db2, startSewing db tid now = .ok db2) ↔
      (t.stages.cutting.status = Status.completed ∧
        t.stages.sewing.status = Status.pending ∧
        ((t.stage = Stage.cutting ∧ t.status = Status.completed) ∨
          (t.stage = Stage.sewing ∧
            (t.status = Status.pending ∨ t.status = Status.completed))))) := by
  have hallow : allowedSewingState t = true ↔
      ((t.stage = Stage.cutting ∧ t.status = Status.completed) ∨
        (t.stage = Stage.sewing ∧
          (t.status = Status.pending ∨ t.status = Status.completed))) := by
    obtain ⟨d, stg, sts, aa, ca, st, ua⟩ := t
    cases stg <;> cases sts <;> simp [allowedSewingState]
  have hred : startSewing db tid now =
      (match startSewingStep t now with
       | .error e => .error (e, db)
       | .ok t2 => .ok { db with tracking := setDoc db.tracking tid t2 }) := by
    simp only [startSewing, ht, if_neg htid]
  constructor
  · intro hcut
    have hstep : startSewingStep t now = .error .precondition := by
      unfold startSewingStep
      rw [if_pos hcut]
    rw [hred, hstep]
  · constructor
    · rintro ⟨db2, hok⟩
      rw [hred] at hok
      by_cases h1 : t.stages.cutting.status ≠ Status.completed
      · have hstep : startSewingStep t now = .error .precondition := by
          unfold startSewingStep
          rw [if_pos h1]
        rw [hstep] at hok
        simp at hok
      · by_cases h2 : t.stages.sewing.status ≠ Status.pending ∨ allowedSewingState t = false
        · have hstep : startSewingStep t now = .error .precondition := by
            unfold startSewingStep
            rw [if_neg h1, if_pos h2]
          rw [hstep] at hok
          simp at hok
        · push_neg at h1 h2
          refine ⟨h1, h2.1, hallow.mp ?_⟩
          cases hb : allowedSewingState t
          · exact absurd hb h2.2
          · rfl
    · rintro ⟨h1, h2, h3⟩
      rw [hred]
      have hstep : startSewingStep t now = .ok { t with
          stage := .sewing
          status := .inProgress
          arrivedAt := some now
          completedAt := none
          stages := { t.stages with
            sewing := { t.stages.sewing with status := .inProgress, arrivedAt := some now } }
          updatedAt := now } := by
        unfold startSewingStep
        rw [if_neg (by simp [h1]), if_neg (by
          push_neg
          exact ⟨h2, by simp [hallow.mpr h3]⟩)]
      rw [hstep]
      exact ⟨_, rfl⟩

/-- Witness for C7: START_SEWING succeeds on a concrete record at
SEWING/PENDING with cutting completed. -/
theorem c7_witness :
    ∃ db2, startSewing c7db "t1" 3 = .ok db2 :=
  (c7_start_sewing_guard c7db "t1" c7track 3 (by decide) rfl).2.mpr
    ⟨rfl, rfl, Or.inr ⟨rfl, Or.inl rfl⟩⟩

/-! ### Claim C8 -/

/-- C8: a successful adjust preserves, exactly, the quantity of every size held
in the record but absent from the per-size delta. -/
theorem c8_extras_preserved (db : DB) (d : String) (mult : Int) (now : Nat)
    (db2 : DB) (inv : InventoryRecord) (m : List (String × Int)) (s : String)
    (h : adjustInventory db d mult now = .ok db2)
    (hinv : lookupDoc db.inventory d = some inv)
    (hm : getDesignSizeMap db d = .ok m)
    (hs : hasKey m s = false) :
    ∃ inv2, lookupDoc db2.inventory d = some inv2 ∧
      getQty inv2.sizes s = getQty inv.sizes s := by
  simp only [adjustInventory] at h
  split at h
  · obtain rfl := Except.ok.inj h
    exact ⟨inv, hinv, rfl⟩
  · rw [hm] at h
    simp only [] at h
    split at h
    · obtain rfl := Except.ok.inj h
      exact ⟨inv, hinv, rfl⟩
    · rw [hinv] at h
      simp only [] at h
      split at h
      · simp at h
      · split at h
        · simp at h
        · obtain rfl := Except.ok.inj h
          exact ⟨_, lookupDoc_setDoc_self db.inventory d _,
            getQty_updatedSizes_not_mem m inv.sizes mult s hs⟩

/-- Witness for C8: a credit for a design whose delta names only size S leaves
the manually-held extra size L untouched. -/
theorem c8_witness :
    adjustInventory c8db "d" 1 4 = .ok c8after ∧
      ∃ inv2, lookupDoc c8after.inventory "d" = some inv2 ∧
        getQty inv2.sizes "L" = getQty [(("S" : String), (2 : Int)), ("L", 7)] "L" :=
  ⟨rfl, c8_extras_preserved c8db "d" 1 4 c8after ⟨"d", [("S", 2), ("L", 7)], 9, 0, 0⟩
    [("S", 1)] "L" rfl rfl rfl rfl⟩

/-! ### Claim C9 -/

/-- C9: COMPLETE_IRONING on an IRONING/IN_PROGRESS record whose stored document
has no (empty) design_id still succeeds: the record is marked COMPLETED and the
inventory (and every other collection) is untouched. -/
theorem c9_complete_ironing_no_design (db : DB) (tid : String) (t : Tracking)
    (now : Nat) (htid : tid ≠ "") (ht : lookupDoc db.tracking tid = some t)
    (hstage : t.stage = Stage.ironing) (hstatus : t.status = Status.inProgress)
    (hdid : t.designId = "") :
    ∃ db2, completeIroning db tid now = .ok db2 ∧
      db2.inventory = db.inventory ∧ db2.designs = db.designs ∧ db2.sales = db.sales ∧
      lookupDoc db2.tracking tid = some { t with
        status := Status.completed
        completedAt := some now
        stages := { t.stages with
          ironing := { t.stages.ironing with
            status := Status.completed
            completedAt := some now } }
        updatedAt := now } := by
  have hstep : completeIroningStep t now = .ok { t with
      status := Status.completed
      completedAt := some now
      stages := { t.stages with
        ironing := { t.stages.ironing with
          status := Status.completed
          completedAt := some now } }
      updatedAt := now } := by
    unfold completeIroningStep
    rw [if_neg (by simp [hstage]), if_neg (by simp [hstatus])]
  refine ⟨{ db with tracking := setDoc db.tracking tid { t with
      status := Status.completed
      completedAt := some now
      stages := { t.stages with
        ironing := { t.stages.ironing with
          status := Status.completed
          completedAt := some now } }
      updatedAt := now } }, ?_, rfl, rfl, rfl, lookupDoc_setDoc_self db.tracking tid _⟩
  simp only [completeIroning, ht, if_neg htid, hstep]
  rw [if_pos hdid]

/-- Witness for C9: a concrete COMPLETE_IRONING with empty design_id succeeds
with the inventory untouched. -/
theorem c9_witness :
    ∃ db2, completeIroning c9db "t1" 6 = .ok db2 ∧
      db2.inventory = c9db.inventory ∧ db2.designs = c9db.designs ∧
      db2.sales = c9db.sales ∧
      lookupDoc db2.tracking "t1" = some { c9track with
        status := Status.completed
        completedAt := some 6
        stages := { c9track.stages with
          ironing := { c9track.stages.ironing with
            status := Status.completed
            completedAt := some 6 } }
        updatedAt := 6 } :=
  c9_complete_ironing_no_design c9db "t1" c9track 6 (by decide) rfl rfl rfl rfl

/-! ### Claim C10 -/

/-- C10: a production DELETE (revert) by a caller below LEVEL_2 fails with a
permission error and the store — quantified over EVERY store, in particular
one in which the tracking record does not even exist, showing the check comes
before the fetch — is unmutated; while `requireAccess` (the only access gate on
the six forward transitions) passes for LEVEL_1. -/
theorem c10_revert_permission (db : DB) (tid : String) (lvl : AccessLevel)
    (now : Nat) (htid : tid ≠ "") (hlvl : lvl ≠ AccessLevel.level2) :
    revertProduction db tid lvl now = .error (.permission, db) ∧
      requireAccess AccessLevel.level1 AccessLevel.level1 = true := by
  constructor
  · simp only [revertProduction]
    rw [if_neg htid, if_pos hlvl]
  · rfl

/-- Witness for C10: on the concrete empty store (no tracking record at all), a
LEVEL_1 DELETE fails with the permission error, store unchanged. -/
theorem c10_witness :
    revertProduction dbEmpty "t1" AccessLevel.level1 0 = .error (.permission, dbEmpty) ∧
      requireAccess AccessLevel.level1 AccessLevel.level1 = true :=
  c10_revert_permission dbEmpty "t1" AccessLevel.level1 0 (by decide) (by decide)

/-! ### Claim C5 -/

/-- C5: every reachable tracking record satisfies the stage invariant. -/
theorem c5_stage_invariant (t : Tracking) (h : Reach t) : trackInv t := by
  induction h with
  | create d now =>
      simp only [trackInv, newTracking, defaultStagePayload]
      decide
  | reset t now hr ih =>
      simp only [trackInv, resetTracking, defaultStagePayload]
      decide
  | completeCutting t t2 now hr hstep ih =>
      obtain ⟨d, stg, sts, aa, ca, ⟨⟨cs, ca1, cc1⟩, ⟨ss, sa2, sc2⟩, ⟨is2, ia3, ic3⟩⟩, ua⟩ := t
      cases stg <;> cases sts <;> cases cs <;> cases ss <;> cases is2 <;>
        simp [completeCuttingStep] at hstep
      all_goals (subst hstep; revert ih; simp only [trackInv]; decide)
  | startSewing t t2 now hr hstep ih =>
      obtain ⟨d, stg, sts, aa, ca, ⟨⟨cs, ca1, cc1⟩, ⟨ss, sa2, sc2⟩, ⟨is2, ia3, ic3⟩⟩, ua⟩ := t
      cases stg <;> cases sts <;> cases cs <;> cases ss <;> cases is2 <;>
        simp [startSewingStep, allowedSewingState] at hstep
      all_goals (subst hstep; revert ih; simp only [trackInv]; decide)
  | completeSewing t t2 now hr hstep ih =>
      obtain ⟨d, stg, sts, aa, ca, ⟨⟨cs, ca1, cc1⟩, ⟨ss, sa2, sc2⟩, ⟨is2, ia3, ic3⟩⟩, ua⟩ := t
      cases stg <;> cases sts <;> cases cs <;> cases ss <;> cases is2 <;>
        simp [completeSewingStep] at hstep
      all_goals (subst hstep; revert ih; simp only [trackInv]; decide)
  | startIroning t t2 now hr hstep ih =>
      obtain ⟨d, stg, sts, aa, ca, ⟨⟨cs, ca1, cc1⟩, ⟨ss, sa2, sc2⟩, ⟨is2, ia3, ic3⟩⟩, ua⟩ := t
      cases stg <;> cases sts <;> cases cs <;> cases ss <;> cases is2 <;>
        simp [startIroningStep, allowedIroningState] at hstep
      all_goals (subst hstep; revert ih; simp only [trackInv]; decide)
  | completeIroning t t2 now hr hstep ih =>
      obtain ⟨d, stg, sts, aa, ca, ⟨⟨cs, ca1, cc1⟩, ⟨ss, sa2, sc2⟩, ⟨is2, ia3, ic3⟩⟩, ua⟩ := t
      cases stg <;> cases sts <;> cases cs <;> cases ss <;> cases is2 <;>
        simp [completeIroningStep] at hstep
      all_goals (subst hstep; revert ih; simp only [trackInv]; decide)
  | revert t t2 now hr hstep ih =>
      obtain ⟨d, stg, sts, aa, ca, ⟨⟨cs, ca1, cc1⟩, ⟨ss, sa2, sc2⟩, ⟨is2, ia3, ic3⟩⟩, ua⟩ := t
      cases stg <;> cases sts <;> cases cs <;> cases ss <;> cases is2 <;>
        simp [revertStep, prevStage, stageStateOf, setStageState] at hstep
      all_goals (subst hstep; revert ih; simp only [trackInv]; decide)

/-- Witness for C5: the freshly created record is reachable and satisfies the
invariant. -/
theorem c5_witness : Reach (newTracking "d" 0) ∧ trackInv (newTracking "d" 0) :=
  ⟨Reach.create "d" 0, c5_stage_invariant _ (Reach.create "d" 0)⟩

/-! ### Claim C4 -/

theorem hasKey_pair_mem (m : List (String × Int)) (s : String) (v : Int)
    (h : (s, v) ∈ m) : hasKey m s = true := by
  apply hasKey_of_mem_keys
  simp
  exact ⟨v, h⟩

theorem getQty_of_mem_nodup (m : List (String × Int)) (s : String) (v : Int)
    (hm : keysNodup m) (hmem : (s, v) ∈ m) : getQty m s = v := by
  induction m with
  | nil => simp at hmem
  | cons p rest ih =>
      simp [keysNodup] at hm
      rcases List.mem_cons.mp hmem with h | h
      · rw [← h]
        simp [getQty]
      · have hne : p.1 ≠ s := by
          intro he
          exact hm.1 v (by rw [he]; exact h)
        simp [getQty, hne, ih hm.2 h]

/-- A non-trivial adjust on an existing record that passes every check yields
exactly the per-size update with the signed total delta. -/
theorem adjustInventory_existing_ok (db : DB) (d : String) (mult : Int) (now : Nat)
    (m : List (String × Int)) (inv : InventoryRecord)
    (hm0 : mult ≠ 0) (hmm : getDesignSizeMap db d = .ok m) (hne : m ≠ [])
    (hinv : lookupDoc db.inventory d = some inv)
    (hok : ∀ p ∈ m, 0 ≤ getQty inv.sizes p.1 + p.2 * mult)
    (htot : 0 ≤ inv.totalAvailable + sumVals m * mult) :
    adjustInventory db d mult now = .ok { db with inventory := setDoc db.inventory d { inv with sizes := updatedSizes m inv.sizes mult, totalAvailable := inv.totalAvailable + sumVals m * mult, updatedAt := now } } := by
  simp only [adjustInventory, hmm, hinv]
  rw [if_neg hm0, if_neg hne]
  have hany : (m.any fun p => decide (getQty inv.sizes p.1 + p.2 * mult < 0)) = false := by
    simp only [List.any_eq_false, decide_eq_true_eq, not_lt]
    intro p hp
    exact hok p hp
  rw [if_neg (by simp [hany]), if_neg (not_lt.mpr htot)]

/-- An adjust whose aggregated size map is empty silently does nothing. -/
theorem adjustInventory_empty_ok (db : DB) (d : String) (mult : Int) (now : Nat)
    (hm0 : mult ≠ 0) (hmm : getDesignSizeMap db d = .ok []) :
    adjustInventory db d mult now = .ok db := by
  simp only [adjustInventory, hmm]
  rw [if_neg hm0]
  simp

/-- C4: completing ironing and then reverting — with the design catalog
unchanged and no intervening mutation — returns every per-size quantity and
the total of the design's inventory record to exactly their prior values. -/
theorem c4_roundtrip (db : DB) (tid : String) (t : Tracking) (dd : Design)
    (inv : InventoryRecord) (now1 now2 : Nat)
    (htid : tid ≠ "")
    (ht : lookupDoc db.tracking tid = some t)
    (hstage : t.stage = Stage.ironing)
    (hstatus : t.status = Status.inProgress)
    (hdid : t.designId ≠ "")
    (hsew : t.stages.sewing.status ≠ Status.pending)
    (hd : lookupDoc db.designs t.designId = some dd)
    (hq : ∀ q ∈ dd.sizeDistribution, 0 ≤ q.2)
    (hinv : lookupDoc db.inventory t.designId = some inv)
    (hnn : allNonneg inv.sizes)
    (htot : 0 ≤ inv.totalAvailable) :
    ∃ db1 db2, completeIroning db tid now1 = .ok db1 ∧
      revertProduction db1 tid AccessLevel.level2 now2 = .ok db2 ∧
      ∃ inv2, lookupDoc db2.inventory t.designId = some inv2 ∧
        (∀ s, getQty inv2.sizes s = getQty inv.sizes s) ∧
        inv2.totalAvailable = inv.totalAvailable := by
  obtain ⟨d0, stg, sts, aa, ca, ⟨cut, ⟨sewSt, sewA, sewC⟩, ⟨iroSt, iroA, iroC⟩⟩, ua⟩ := t
  obtain rfl : stg = Stage.ironing := hstage
  obtain rfl : sts = Status.inProgress := hstatus
  have hdid2 : d0 ≠ "" := hdid
  have hsew2 : sewSt ≠ Status.pending := hsew
  have hd2 : lookupDoc db.designs d0 = some dd := hd
  have hinv2 : lookupDoc db.inventory d0 = some inv := hinv
  set m := aggregateSizes dd.sizeDistribution with hmdef
  have hmvals : allNonneg m := allNonneg_aggregateSizes _ hq
  have hmnodup : keysNodup m := keysNodup_aggregateSizes _
  have hstep1 : completeIroningStep
      ⟨d0, .ironing, .inProgress, aa, ca,
        ⟨cut, ⟨sewSt, sewA, sewC⟩, ⟨iroSt, iroA, iroC⟩⟩, ua⟩ now1 =
      .ok ⟨d0, .ironing, .completed, aa, some now1,
        ⟨cut, ⟨sewSt, sewA, sewC⟩, ⟨.completed, iroA, some now1⟩⟩, now1⟩ := rfl
  -- the store after the tracking write of COMPLETE_IRONING
  set dbT : DB := { db with tracking := setDoc db.tracking tid ⟨d0, .ironing, .completed, aa, some now1, ⟨cut, ⟨sewSt, sewA, sewC⟩, ⟨.completed, iroA, some now1⟩⟩, now1⟩ } with hdbT
  have hmT : getDesignSizeMap dbT d0 = .ok m := by
    simp only [getDesignSizeMap, hdbT, hd2]
  have h1pre : completeIroning db tid now1 = adjustInventory dbT d0 1 now1 := by
    simp only [completeIroning]
    rw [if_neg htid]
    simp only [ht, hstep1]
    rw [if_neg hdid2]
  have hlook2 : lookupDoc dbT.tracking tid =
      some ⟨d0, .ironing, .completed, aa, some now1,
        ⟨cut, ⟨sewSt, sewA, sewC⟩, ⟨.completed, iroA, some now1⟩⟩, now1⟩ :=
    lookupDoc_setDoc_self db.tracking tid _
  have hstep2 : revertStep
      ⟨d0, .ironing, .completed, aa, some now1,
        ⟨cut, ⟨sewSt, sewA, sewC⟩, ⟨.completed, iroA, some now1⟩⟩, now1⟩ now2 =
      .ok ⟨d0, .sewing, .pending, none, none,
        ⟨cut, ⟨.pending, none, none⟩, ⟨.pending, none, none⟩⟩, now2⟩ := by
    simp [revertStep, prevStage, stageStateOf, setStageState, hsew2]
  by_cases hempty : m = []
  · -- empty size map: both inventory adjustments are silent no-ops
    have hadj1 : adjustInventory dbT d0 1 now1 = .ok dbT :=
      adjustInventory_empty_ok dbT d0 1 now1 (by norm_num) (hempty ▸ hmT)
    have h1 : completeIroning db tid now1 = .ok dbT := h1pre.trans hadj1
    have hadj2 : adjustInventory dbT d0 (-1) now2 = .ok dbT :=
      adjustInventory_empty_ok dbT d0 (-1) now2 (by norm_num) (hempty ▸ hmT)
    have h2 : revertProduction dbT tid AccessLevel.level2 now2 =
        .ok { dbT with tracking := setDoc dbT.tracking tid ⟨d0, .sewing, .pending, none, none, ⟨cut, ⟨.pending, none, none⟩, ⟨.pending, none, none⟩⟩, now2⟩ } := by
      simp only [revertProduction]
      rw [if_neg htid, if_neg (by simp)]
      simp only [hlook2, hstep2]
      simp [stageStateOf, hdid2, hadj2]
    refine ⟨dbT, _, h1, h2, inv, ?_, fun s => rfl, rfl⟩
    simpa only [hdbT] using hinv2
  · -- nonempty size map: credit then matching debit
    have hok1 : ∀ p ∈ m, 0 ≤ getQty inv.sizes p.1 + p.2 * 1 := by
      intro p hp
      have h1 := getQty_nonneg inv.sizes p.1 hnn
      have h2 := hmvals p hp
      omega
    have htot1 : 0 ≤ inv.totalAvailable + sumVals m * 1 := by
      have := sumVals_nonneg m hmvals
      omega
    have hadj1 := adjustInventory_existing_ok dbT d0 1 now1 m inv (by norm_num)
      hmT hempty (by simpa only [hdbT] using hinv2) hok1 htot1
    set inv1 : InventoryRecord := { inv with
      sizes := updatedSizes m inv.sizes 1
      totalAvailable := inv.totalAvailable + sumVals m * 1
      updatedAt := now1 } with hinv1def
    set db1 : DB := { dbT with inventory := setDoc dbT.inventory d0 inv1 } with hdb1
    have h1 : completeIroning db tid now1 = .ok db1 := h1pre.trans hadj1
    -- the debit of the revert
    have hm1 : getDesignSizeMap db1 d0 = .ok m := by
      simp only [getDesignSizeMap, hdb1, hdbT, hd2]
    have hlookInv1 : lookupDoc db1.inventory d0 = some inv1 :=
      lookupDoc_setDoc_self dbT.inventory d0 inv1
    have hgetmem : ∀ p ∈ m, getQty inv1.sizes p.1 = getQty inv.sizes p.1 + p.2 := by
      intro p hp
      have hk := hasKey_pair_mem m p.1 p.2 hp
      have := getQty_updatedSizes_mem m inv.sizes 1 p.1 hmnodup hk
      rw [getQty_of_mem_nodup m p.1 p.2 hmnodup hp] at this
      simpa [hinv1def] using this
    have hok2 : ∀ p ∈ m, 0 ≤ getQty inv1.sizes p.1 + p.2 * (-1) := by
      intro p hp
      have h1 := hgetmem p hp
      have h2 := getQty_nonneg inv.sizes p.1 hnn
      omega
    have htot2 : 0 ≤ inv1.totalAvailable + sumVals m * (-1) := by
      have : inv1.totalAvailable = inv.totalAvailable + sumVals m * 1 := rfl
      omega
    have hadj2 := adjustInventory_existing_ok db1 d0 (-1) now2 m inv1 (by norm_num)
      hm1 hempty hlookInv1 hok2 htot2
    set inv2 : InventoryRecord := { inv1 with
      sizes := updatedSizes m inv1.sizes (-1)
      totalAvailable := inv1.totalAvailable + sumVals m * (-1)
      updatedAt := now2 } with hinv2def
    set dbB : DB := { db1 with inventory := setDoc db1.inventory d0 inv2 } with hdbB
    have hlook2b : lookupDoc db1.tracking tid =
        some ⟨d0, .ironing, .completed, aa, some now1,
          ⟨cut, ⟨sewSt, sewA, sewC⟩, ⟨.completed, iroA, some now1⟩⟩, now1⟩ := by
      simp only [hdb1]
      exact hlook2
    have h2 : revertProduction db1 tid AccessLevel.level2 now2 =
        .ok { dbB with tracking := setDoc dbB.tracking tid ⟨d0, .sewing, .pending, none, none, ⟨cut, ⟨.pending, none, none⟩, ⟨.pending, none, none⟩⟩, now2⟩ } := by
      simp only [revertProduction]
      rw [if_neg htid, if_neg (by simp)]
      simp only [hlook2b, hstep2]
      simp [stageStateOf, hdid2, hadj2, hdbB]
    refine ⟨db1, _, h1, h2, inv2, ?_, ?_, ?_⟩
    · exact lookupDoc_setDoc_self db1.inventory d0 inv2
    · intro s
      by_cases hk : hasKey m s
      · have e1 : getQty inv2.sizes s = getQty inv1.sizes s + getQty m s * (-1) := by
          simpa [hinv2def] using getQty_updatedSizes_mem m inv1.sizes (-1) s hmnodup hk
        have e2 : getQty inv1.sizes s = getQty inv.sizes s + getQty m s * 1 := by
          simpa [hinv1def] using getQty_updatedSizes_mem m inv.sizes 1 s hmnodup hk
        rw [e1, e2]
        ring
      · have e1 : getQty inv2.sizes s = getQty inv1.sizes s := by
          simpa [hinv2def] using
            getQty_updatedSizes_not_mem m inv1.sizes (-1) s (by simpa using hk)
        have e2 : getQty inv1.sizes s = getQty inv.sizes s := by
          simpa [hinv1def] using
            getQty_updatedSizes_not_mem m inv.sizes 1 s (by simpa using hk)
        rw [e1, e2]
    · show inv1.totalAvailable + sumVals m * (-1) = inv.totalAvailable
      have : inv1.totalAvailable = inv.totalAvailable + sumVals m * 1 := rfl
      omega

/-- Witness for C4: a concrete roundtrip over a record holding S:1, M:0 with
total 1 restores exactly those values. -/
theorem c4_witness :
    ∃ db1 db2, completeIroning c4db "t1" 1 = .ok db1 ∧
      revertProduction db1 "t1" AccessLevel.level2 2 = .ok db2 ∧
      ∃ inv2, lookupDoc db2.inventory c4track.designId = some inv2 ∧
        (∀ s, getQty inv2.sizes s =
          getQty [(("S" : String), (1 : Int)), ("M", 0)] s) ∧
        inv2.totalAvailable = 1 :=
  c4_roundtrip c4db "t1" c4track ⟨[("S", 2), ("M", 3)]⟩
    ⟨"d", [("S", 1), ("M", 0)], 1, 0, 0⟩ 1 2
    (by decide) rfl rfl rfl (by decide) (by decide) rfl (by decide) rfl
    (by decide) (by decide)

end LSP
